import Mathlib

/-!
Verification of the pandoc-backend conversion pipeline (src/app.py).

The Python source is shallowly embedded: strings are Lean `String`s or
`List Char`, Python dict literals become ordered association lists looked up
with Python semantics (later duplicate keys override earlier ones), fallible
operations return `Option`, and the stateful batch loop becomes an explicit
fold over the uploaded files.
-/

namespace PandocBackend

/-- Python `dict` literal semantics: the dictionary built from an ordered list
of key/value pairs keeps, for each key, the value of its *last* occurrence;
`d.get(k, default)` returns that value or the default. -/
def pyDictGet (t : List (String × String)) (k : String) (d : String) : String :=
  match t.reverse.find? (fun p => p.1 == k) with
  | some p => p.2
  | none => d

/-- Python `str.lower()` (ASCII model). -/
def pyLower (s : String) : String :=
  String.mk (s.data.map Char.toLower)

/-- Python whitespace characters (for `str.strip()`). -/
def pyIsSpace (c : Char) : Bool :=
  c = ' ' || c = '\t' || c = '\n' || c = '\x0d' || c = '\x0b' || c = '\x0c'

/-- Python `str.strip()` on a character list. -/
def pyStripL (l : List Char) : List Char :=
  ((l.dropWhile pyIsSpace).reverse.dropWhile pyIsSpace).reverse

/-- Python `str.strip()`. -/
def pyStrip (s : String) : String :=
  String.mk (pyStripL s.data)

/-- Suffix of the list after its last `'.'`, i.e. Python
`filename.rsplit('.', 1)[1]`; `none` when there is no dot (in which case the
Python indexing `[1]` raises `IndexError`). -/
def lastExt : List Char → Option (List Char)
  | [] => none
  | c :: cs =>
    match lastExt cs with
    | some e => some e
    | none => if c = '.' then some cs else none

/-- The `format_mapping` table of `get_input_format` (src/app.py lines 86-138),
in source order. -/
def input_format_table : List (String × String) :=
  [("docx", "docx"), ("doc", "doc"), ("odt", "odt"), ("rtf", "rtf"),
   ("html", "html"), ("htm", "html"), ("txt", "markdown"), ("md", "markdown"),
   ("markdown", "markdown"), ("tex", "latex"), ("latex", "latex"),
   ("epub", "epub"), ("mobi", "mobi"), ("fb2", "fb2"), ("opml", "opml"),
   ("org", "org"), ("mediawiki", "mediawiki"), ("dokuwiki", "dokuwiki"),
   ("textile", "textile"), ("rst", "rst"), ("asciidoc", "asciidoc"),
   ("man", "man"), ("ms", "ms"), ("docbook", "docbook"), ("xml", "docbook"),
   ("jats", "jats"), ("tei", "tei"), ("ris", "ris"), ("csljson", "csljson"),
   ("endnotexml", "endnotexml"), ("ipynb", "ipynb"), ("csv", "csv"),
   ("tsv", "tsv"), ("json", "json"), ("native", "native"), ("typst", "typst"),
   ("djot", "djot"), ("creole", "creole"), ("tikiwiki", "tikiwiki"),
   ("twiki", "twiki"), ("vimwiki", "vimwiki"), ("muse", "muse"),
   ("pod", "pod"), ("t2t", "t2t"), ("haddock", "haddock"), ("mdoc", "mdoc"),
   ("biblatex", "biblatex"), ("bibtex", "bibtex"), ("bits", "bits"),
   ("pdf", "pdf"), ("pptx", "pptx")]

/-- `get_input_format` (src/app.py lines 82-140).  The source computes
`ext = filename.rsplit('.', 1)[1].lower()` and then
`format_mapping.get(ext, 'markdown')`; when the filename contains no dot the
index `[1]` raises, which the embedding renders as `none`. -/
def get_input_format (filename : String) : Option String :=
  match lastExt filename.data with
  | none => none
  | some e => some (pyDictGet input_format_table (String.mk (e.map Char.toLower)) "markdown")

/-- The `ALLOWED_EXTENSIONS` set (src/app.py lines 40-48). -/
def ALLOWED_EXTENSIONS : List String :=
  ["docx", "doc", "odt", "rtf", "html", "htm", "txt", "md", "markdown",
   "tex", "latex", "epub", "mobi", "fb2", "opml", "org", "mediawiki",
   "dokuwiki", "textile", "rst", "asciidoc", "man", "ms", "docbook", "xml",
   "jats", "tei", "ris", "csljson", "endnotexml", "ipynb", "csv", "tsv",
   "json", "native", "typst", "djot", "creole", "tikiwiki", "twiki",
   "vimwiki", "muse", "pod", "t2t", "haddock", "mdoc", "biblatex", "bibtex",
   "bits", "pdf", "pptx"]

/-- `allowed_file` (src/app.py lines 78-80): the filename contains a dot and
its lower-cased last extension is in `ALLOWED_EXTENSIONS`. -/
def allowed_file (filename : String) : Bool :=
  match lastExt filename.data with
  | none => false
  | some e => ALLOWED_EXTENSIONS.contains (String.mk (e.map Char.toLower))

/-- The `format_mapping` dict literal of `map_output_format`
(src/app.py lines 499-672), transcribed entry by entry in source order,
duplicate keys included (Python keeps the last value for each key). -/
def output_format_mapping : List (String × String) :=
  [("txt", "plain"), ("text", "plain"), ("plaintext", "plain"),
   ("word", "docx"), ("powerpoint", "pptx"), ("presentation", "pptx"),
   ("document", "docx"), ("webpage", "html"), ("web", "html"),
   ("page", "html"), ("notebook", "ipynb"), ("jupyter", "ipynb"),
   ("ebook", "epub"), ("book", "epub"), ("slide", "revealjs"),
   ("slides", "revealjs"), ("deck", "revealjs"), ("beamer_slide", "beamer"),
   ("latex_slide", "beamer"), ("pdf_slide", "beamer"),
   ("markdown_github", "gfm"), ("github_markdown", "gfm"), ("github", "gfm"),
   ("commonmark_x", "commonmark_x"), ("commonmark_x_extended", "commonmark_x"),
   ("extended_commonmark", "commonmark_x"), ("markua", "markua"),
   ("markua_document", "markua"), ("spip", "spip"), ("spip_wiki", "spip"),
   ("epub2", "epub2"), ("epub_version2", "epub2"), ("epub3", "epub3"),
   ("epub_version3", "epub3"), ("docbook4", "docbook4"),
   ("docbook_version4", "docbook4"), ("docbook5", "docbook5"),
   ("docbook_version5", "docbook5"), ("jats_archiving", "jats_archiving"),
   ("jats_archiving_version", "jats_archiving"),
   ("jats_publishing", "jats_publishing"),
   ("jats_publishing_version", "jats_publishing"),
   ("jats_articleauthoring", "jats_articleauthoring"),
   ("jats_article_authoring", "jats_articleauthoring"),
   ("html5", "html5"), ("html_version5", "html5"), ("html4", "html4"),
   ("html_version4", "html4"), ("xhtml", "xhtml"), ("xhtml5", "xhtml5"),
   ("xhtml_version5", "xhtml5"), ("xhtml4", "xhtml4"),
   ("xhtml_version4", "xhtml4"), ("markdown_github", "markdown_github"),
   ("markdown_mmd", "markdown_mmd"), ("markdown_phpextra", "markdown_phpextra"),
   ("markdown_strict", "markdown_strict"),
   ("markdown_texinfo", "markdown_texinfo"), ("commonmark", "commonmark"),
   ("commonmark_strict", "commonmark"), ("commonmark_x", "commonmark_x"),
   ("commonmark_extended", "commonmark_x"), ("gfm", "gfm"),
   ("github_flavored", "gfm"), ("markua", "markua"),
   ("markua_document", "markua"), ("spip", "spip"), ("spip_wiki", "spip"),
   ("epub2", "epub2"), ("epub_version2", "epub2"), ("epub3", "epub3"),
   ("epub_version3", "epub3"), ("texinfo", "texinfo"), ("tex_info", "texinfo"),
   ("textile", "textile"), ("textile_wiki", "textile"), ("org", "org"),
   ("org_mode", "org"), ("emacs_org", "org"), ("asciidoc", "asciidoc"),
   ("ascii_doc", "asciidoc"), ("rst", "rst"), ("restructuredtext", "rst"),
   ("rest", "rst"), ("mediawiki", "mediawiki"), ("wiki", "mediawiki"),
   ("wikipedia", "mediawiki"), ("dokuwiki", "dokuwiki"),
   ("doku_wiki", "dokuwiki"), ("haddock", "haddock"),
   ("haskell_doc", "haddock"), ("opml", "opml"), ("outline", "opml"),
   ("fb2", "fb2"), ("fictionbook", "fb2"), ("mobi", "mobi"),
   ("kindle", "mobi"), ("icml", "icml"), ("indesign", "icml"),
   ("tei", "tei"), ("text_encoding_initiative", "tei"), ("native", "native"),
   ("pandoc_native", "native"), ("json", "json"),
   ("javascript_object_notation", "json"), ("jats_archiving", "jats_archiving"),
   ("jats_archiving_version", "jats_archiving"),
   ("jats_publishing", "jats_publishing"),
   ("jats_publishing_version", "jats_publishing"),
   ("jats_articleauthoring", "jats_articleauthoring"),
   ("jats_article_authoring", "jats_articleauthoring"),
   ("html5", "html5"), ("html_version5", "html5"), ("html4", "html4"),
   ("html_version4", "html4"), ("xhtml", "xhtml"), ("xhtml5", "xhtml5"),
   ("xhtml_version5", "xhtml5"), ("xhtml4", "xhtml4"),
   ("xhtml_version4", "xhtml4"), ("markdown_github", "markdown_github"),
   ("markdown_mmd", "markdown_mmd"), ("markdown_phpextra", "markdown_phpextra"),
   ("markdown_strict", "markdown_strict"),
   ("markdown_texinfo", "markdown_texinfo"), ("commonmark", "commonmark"),
   ("commonmark_x", "commonmark_x"), ("gfm", "gfm"), ("markua", "markua"),
   ("spip", "txt"), ("epub2", "epub"), ("epub3", "epub"),
   ("docbook4", "xml"), ("docbook5", "xml"), ("man", "man"), ("ms", "ms"),
   ("texinfo", "texi"), ("textile", "textile"), ("org", "org"),
   ("asciidoc", "adoc"), ("rst", "rst"), ("mediawiki", "wiki"),
   ("dokuwiki", "txt"), ("haddock", "hs"), ("opml", "opml"), ("fb2", "fb2"),
   ("mobi", "mobi"), ("icml", "icml"), ("tei", "xml"), ("native", "native"),
   ("json", "json"), ("jats_archiving", "xml"), ("jats_publishing", "xml"),
   ("jats_articleauthoring", "xml"), ("html5", "html"), ("html4", "html"),
   ("xhtml", "xhtml"), ("xhtml5", "xhtml"), ("xhtml4", "xhtml"),
   ("markdown_github", "md"), ("markdown_mmd", "md"),
   ("markdown_phpextra", "md"), ("markdown_strict", "md"),
   ("markdown_texinfo", "texi"), ("commonmark", "md"), ("commonmark_x", "md"),
   ("gfm", "md"), ("markua", "md"), ("spip", "txt"), ("epub2", "epub"),
   ("epub3", "epub"), ("texinfo", "texi")]

/-- `map_output_format` (src/app.py lines 497-675):
`format_mapping.get(user_format.lower(), user_format.lower())`. -/
def map_output_format (user_format : String) : String :=
  pyDictGet output_format_mapping (pyLower user_format) (pyLower user_format)

/-- Output-format resolution as performed by `convert_files`
(src/app.py lines 765-776): the raw form value is stripped and lower-cased
before `map_output_format` is applied. -/
def resolve_output_format (raw : String) : String :=
  map_output_format (pyLower (pyStrip raw))

/-! ## Output validator (src/app.py lines 177-213) -/

/-- UTF-8 continuation byte. -/
def utf8Cont (b : Nat) : Bool := 0x80 ≤ b && b ≤ 0xBF

/-- Strict UTF-8 decoding of at most `n` characters from the front of a byte
list (the model of Python's `f.read(100)` under the `utf-8` codec): `none`
models a `UnicodeDecodeError`. -/
def utf8DecodePrefix : Nat → List Nat → Option (List Char)
  | 0, _ => some []
  | _ + 1, [] => some []
  | n + 1, b :: rest =>
    if b ≤ 0x7F then
      (utf8DecodePrefix n rest).map (fun cs => Char.ofNat b :: cs)
    else if 0xC2 ≤ b && b ≤ 0xDF then
      match rest with
      | b1 :: rest1 =>
        if utf8Cont b1 then
          (utf8DecodePrefix n rest1).map
            (fun cs => Char.ofNat ((b - 0xC0) * 0x40 + (b1 - 0x80)) :: cs)
        else none
      | [] => none
    else if 0xE0 ≤ b && b ≤ 0xEF then
      match rest with
      | b1 :: b2 :: rest2 =>
        let lo1 : Nat := if b = 0xE0 then 0xA0 else 0x80
        let hi1 : Nat := if b = 0xED then 0x9F else 0xBF
        if (lo1 ≤ b1 && b1 ≤ hi1) && utf8Cont b2 then
          (utf8DecodePrefix n rest2).map
            (fun cs =>
              Char.ofNat ((b - 0xE0) * 0x1000 + (b1 - 0x80) * 0x40 + (b2 - 0x80)) :: cs)
        else none
      | _ => none
    else if 0xF0 ≤ b && b ≤ 0xF4 then
      match rest with
      | b1 :: b2 :: b3 :: rest3 =>
        let lo1 : Nat := if b = 0xF0 then 0x90 else 0x80
        let hi1 : Nat := if b = 0xF4 then 0x8F else 0xBF
        if (lo1 ≤ b1 && b1 ≤ hi1) && (utf8Cont b2 && utf8Cont b3) then
          (utf8DecodePrefix n rest3).map
            (fun cs =>
              Char.ofNat ((b - 0xF0) * 0x40000 + (b1 - 0x80) * 0x1000 +
                (b2 - 0x80) * 0x40 + (b3 - 0x80)) :: cs)
        else none
      | _ => none
    else none

/-- The binary-container formats of `validate_output_file` (src/app.py
line 192). -/
def binary_validation_formats : List String :=
  ["pdf", "docx", "pptx", "odt", "epub", "mobi", "fb2"]

/-- `validate_output_file` (src/app.py lines 177-213).  The output file is
modelled as `none` (does not exist) or `some bytes`. -/
def validate_output_file (file : Option (List Nat)) (output_format : String) :
    Bool × String :=
  match file with
  | none => (false, "Output file was not created")
  | some bytes =>
    if bytes.length = 0 then (false, "Output file is empty")
    else if binary_validation_formats.contains output_format then
      if bytes.length < 50 then
        (false, "Output " ++ output_format ++ " file appears to be corrupted (too small)")
      else (true, "Output " ++ output_format ++ " file validated successfully")
    else
      match utf8DecodePrefix 100 bytes with
      | some content =>
        if pyStripL content = [] then
          (false, "Output " ++ output_format ++ " file is empty")
        else (true, "Output " ++ output_format ++ " file validated successfully")
      | none =>
        if bytes.length < 50 then
          (false, "Output " ++ output_format ++ " file appears to be corrupted (too small)")
        else (true, "Output " ++ output_format ++ " file validated successfully")

/-! ## Slide-deck extractor `convert_pptx_to_markdown`
(src/app.py lines 427-470).  A shape is modelled as `Option String`: `none`
for a shape without a `text` attribute, `some t` for its text. -/

/-- Cased character (ASCII model of Python's case predicates). -/
def pyIsCased (c : Char) : Bool := c.isUpper || c.isLower

/-- Python `str.isupper()`: at least one cased character and no lowercase
character. -/
def pyIsUpperL (l : List Char) : Bool :=
  l.any pyIsCased && l.all (fun c => !c.isLower)

/-- Python `str.title()` character recursion: an alphabetic character is
upper-cased after a non-alphabetic character and lower-cased after an
alphabetic one. -/
def pyTitleL : List Char → Bool → List Char
  | [], _ => []
  | c :: cs, prev =>
    if c.isAlpha then
      (if prev then c.toLower else c.toUpper) :: pyTitleL cs true
    else c :: pyTitleL cs false

/-- Python `str.title()`. -/
def pyTitle (s : String) : String := String.mk (pyTitleL s.data false)

/-- The body of the `for shape in slide.shapes` loop (src/app.py
lines 441-454), as a fold step on the accumulated `markdown_content`. -/
def pptxShapeAcc (acc : List String) (shape : Option String) : List String :=
  match shape with
  | none => acc
  | some raw =>
    let text := pyStrip raw
    if text = "" then acc
    else if text.length < 100 && pyIsUpperL text.data then
      acc ++ ["## " ++ pyTitle text]
    else
      (text.splitOn "\n").foldl
        (fun a para => if pyStrip para = "" then a else a ++ [pyStrip para, ""]) acc

/-- The body of the `for slide_num, slide in enumerate(prs.slides, 1)` loop
(src/app.py lines 436-457): slide header, blank line, shape lines, then the
`---` separator and a blank line. -/
def pptxSlideAcc (acc : List String) (p : Nat × List (Option String)) : List String :=
  p.2.foldl pptxShapeAcc (acc ++ ["# Slide " ++ Nat.repr p.1, ""]) ++ ["---", ""]

/-- The `markdown_content` line list built by `convert_pptx_to_markdown`
(src/app.py lines 434-457); the file written is these lines joined with
newlines. -/
def convert_pptx_to_markdown_lines (slides : List (List (Option String))) :
    List String :=
  (slides.enum.map (fun p => (p.1 + 1, p.2))).foldl pptxSlideAcc []

/-- Declarative per-shape output, following the spec's description of the
shape heuristic: short all-upper-case text becomes a sub-heading, other text
contributes its non-blank paragraphs each followed by a blank line. -/
def shapeLinesSpec (shape : Option String) : List String :=
  match shape with
  | none => []
  | some raw =>
    let text := pyStrip raw
    if text = "" then []
    else if text.length < 100 && pyIsUpperL text.data then
      ["## " ++ pyTitle text]
    else
      (text.splitOn "\n").flatMap
        (fun para => if pyStrip para = "" then [] else [pyStrip para, ""])

/-- Declarative per-slide block, following the spec: a `Slide N` heading,
the shape lines, and a horizontal-rule separator. -/
def slideBlockSpec (i : Nat) (shapes : List (Option String)) : List String :=
  ["# Slide " ++ Nat.repr (i + 1), ""] ++ shapes.flatMap shapeLinesSpec ++ ["---", ""]

/-! ## Media relocation `organize_media_files` (src/app.py lines 724-756) -/

/-- Decimal rendering worker; the fuel argument only forces structural
termination and is irrelevant as long as it dominates `n` (every division by
ten strictly decreases `n`). -/
def natDecAux : Nat → Nat → List Char
  | 0, n => [Nat.digitChar n]
  | fuel + 1, n =>
    if n < 10 then [Nat.digitChar n]
    else natDecAux fuel (n / 10) ++ [Nat.digitChar (n % 10)]

/-- Decimal rendering of a natural number (the model of Python's
`f"...{counter}..."` string interpolation). -/
def natDec (n : Nat) : List Char := natDecAux n n

/-- Numeric value of a digit character. -/
def digitVal (c : Char) : Nat := c.toNat - 48

/-- Value of a decimal digit string (used to invert `natDec`). -/
def decVal (l : List Char) : Nat := l.foldl (fun a c => 10 * a + digitVal c) 0

/-- Split a character list at its last `'.'`: `some (b, a)` with
`l = b ++ '.' :: a` and no dot in `a`; `none` when there is no dot. -/
def splitLastDot : List Char → Option (List Char × List Char)
  | [] => none
  | c :: cs =>
    match splitLastDot cs with
    | some p => some (c :: p.1, p.2)
    | none => if c = '.' then some ([], cs) else none

/-- Python `os.path.splitext` on a basename: split off the last dot-extension
unless every character before the last dot is itself a dot (so that dotfiles
such as `.bashrc` keep their name whole).  Returns `(root, ext)` with the dot
kept on `ext`. -/
def pySplitext (l : List Char) : List Char × List Char :=
  match splitLastDot l with
  | some p => if p.1.any (fun c => !(c = '.')) then (p.1, '.' :: p.2) else (l, [])
  | none => (l, [])

/-- The collision name `f"{base_name}_{counter}{ext}"` (src/app.py
line 743). -/
def suffixed (base ext : List Char) (c : Nat) : List Char :=
  base ++ '_' :: (natDec c ++ ext)

/-- The `while os.path.exists(dst_path)` loop of `organize_media_files`
(src/app.py lines 740-745), with explicit fuel: while the candidate name is
taken, move to `base_counter.ext` and increment the counter. -/
def pickDstLoop (existing : List (List Char)) (base ext : List Char) :
    Nat → Nat → List Char → List Char
  | 0, _, dst => dst
  | fuel + 1, counter, dst =>
    if dst ∈ existing then
      pickDstLoop existing base ext fuel (counter + 1) (suffixed base ext counter)
    else dst

/-- Destination name chosen for one walked file: the original basename if
free, otherwise the first free suffixed variant.  The fuel
`existing.length + 2` is sufficient (proved below), so the embedding agrees
with the source's unbounded `while` loop. -/
def pickDst (existing : List (List Char)) (file : List Char) : List Char :=
  let p := pySplitext file
  pickDstLoop existing p.1 p.2 (existing.length + 2) 1 file

/-- A file found by the recursive walk of the extraction directory: its
basename and (an abstract token standing for) its byte content. -/
structure MFile where
  name : List Char
  content : Nat
deriving DecidableEq, Repr

/-- Effect on the flat `img` directory of `shutil.move(src_path, dst_path)`:
the directory maps `dst` to the moved content (replacing any previous entry
of that name, as a filesystem would). -/
def imgInsert (img : List (List Char × Nat)) (k : List Char) (v : Nat) :
    List (List Char × Nat) :=
  img.filter (fun p => !(p.1 = k)) ++ [(k, v)]

/-- One iteration of the walk loop of `organize_media_files`: choose a free
destination name, move the file, and append the destination to
`moved_files`. -/
def organizeStep (st : List (List Char × Nat) × List (List Char)) (f : MFile) :
    List (List Char × Nat) × List (List Char) :=
  let dst := pickDst (st.1.map Prod.fst) f.name
  (imgInsert st.1 dst f.content, st.2 ++ [dst])

/-- `organize_media_files` (src/app.py lines 724-756): `files` are the files
found by the recursive walk of the extraction directory (which are all moved
out of it), `img0` is the prior content of the flat `img` directory.  Returns
the final `img` directory and the `moved_files` list of destination names. -/
def organize_media_files (files : List MFile) (img0 : List (List Char × Nat)) :
    List (List Char × Nat) × List (List Char) :=
  files.foldl organizeStep (img0, [])

/-! ## Batch coordinator `convert_files` (src/app.py lines 758-1020).

The external world of one uploaded file (what Werkzeug, the preprocessors and
the pandoc subprocess do with it) is abstracted into an `UpFile` record; the
per-session directories (`media`, `img`) are explicit loop state, shared by
every file of the batch. -/

/-- One uploaded file together with the outcomes of the external stages of
its pipeline: `preprocessErr` is the error of `preprocess_special_formats`
(consulted only for `pdf`/`pptx` inputs, the only formats it can fail on),
`inputMissing` models the `os.path.exists` guard before the pandoc call,
`pandocErr` is the error returned by `convert_file_with_pandoc` (engine error
or validation failure; `none` means success), and `extracted` are the media
files the engine deposits in the shared extraction directory during its
run. -/
structure UpFile where
  filename : String
  preprocessErr : Option String
  inputMissing : Bool
  pandocErr : Option String
  extracted : List MFile
deriving DecidableEq, Repr

/-- The `format_extensions` dict literal (src/app.py lines 835-936), in
source order, duplicate keys included. -/
def format_extensions : List (String × String) :=
  [("gfm", "md"), ("markdown", "md"), ("html", "html"), ("latex", "tex"),
   ("pdf", "pdf"), ("docx", "docx"), ("odt", "odt"), ("rtf", "rtf"),
   ("epub", "epub"), ("pptx", "pptx"), ("xml", "xml"), ("txt", "txt"),
   ("plain", "txt"), ("docbook", "xml"), ("jats", "xml"),
   ("opendocument", "odt"), ("revealjs", "html"), ("beamer", "pdf"),
   ("s5", "html"), ("slideous", "html"), ("dzslides", "html"),
   ("slidy", "html"), ("asciidoc", "adoc"), ("rst", "rst"), ("org", "org"),
   ("textile", "textile"), ("mediawiki", "wiki"), ("dokuwiki", "txt"),
   ("haddock", "hs"), ("man", "man"), ("ms", "ms"), ("opml", "opml"),
   ("fb2", "fb2"), ("mobi", "mobi"), ("icml", "icml"), ("tei", "xml"),
   ("native", "native"), ("json", "json"), ("docbook5", "xml"),
   ("docbook4", "xml"), ("jats_archiving", "xml"), ("jats_publishing", "xml"),
   ("jats_articleauthoring", "xml"), ("html5", "html"), ("html4", "html"),
   ("xhtml", "xhtml"), ("xhtml5", "xhtml"), ("xhtml4", "xhtml"),
   ("markdown_github", "md"), ("markdown_mmd", "md"),
   ("markdown_phpextra", "md"), ("markdown_strict", "md"),
   ("markdown_texinfo", "texi"), ("commonmark", "md"), ("commonmark_x", "md"),
   ("gfm", "md"), ("markua", "md"), ("spip", "txt"), ("epub2", "epub"),
   ("epub3", "epub"), ("docbook4", "xml"), ("docbook5", "xml"),
   ("man", "man"), ("ms", "ms"), ("texinfo", "texi"), ("textile", "textile"),
   ("org", "org"), ("asciidoc", "adoc"), ("rst", "rst"),
   ("mediawiki", "wiki"), ("dokuwiki", "txt"), ("haddock", "hs"),
   ("opml", "opml"), ("fb2", "fb2"), ("mobi", "mobi"), ("icml", "icml"),
   ("tei", "xml"), ("native", "native"), ("json", "json"),
   ("jats_archiving", "xml"), ("jats_publishing", "xml"),
   ("jats_articleauthoring", "xml"), ("html5", "html"), ("html4", "html"),
   ("xhtml", "xhtml"), ("xhtml5", "xhtml"), ("xhtml4", "xhtml"),
   ("markdown_github", "md"), ("markdown_mmd", "md"),
   ("markdown_phpextra", "md"), ("markdown_strict", "md"),
   ("markdown_texinfo", "texi"), ("commonmark", "md"), ("commonmark_x", "md"),
   ("gfm", "md"), ("markua", "md"), ("spip", "txt"), ("epub2", "epub"),
   ("epub3", "epub"), ("texinfo", "texi")]

/-- `base_name = os.path.splitext(filename)[0]` (src/app.py line 832). -/
def base_name (filename : String) : String :=
  String.mk (pySplitext filename.data).1

/-- `output_filename = f"{base_name}.{extension}"` with
`extension = format_extensions.get(output_format, output_format)`
(src/app.py lines 938-943; the `output_format is None` branch is dead code
since `map_output_format` always returns a string). -/
def output_filename (output_format filename : String) : String :=
  base_name filename ++ "." ++ pyDictGet format_extensions output_format output_format

/-- What happened to one file of the batch (for `.succeeded`, the
`moved_media_files` list returned by `organize_media_files` during that
file's iteration is recorded). -/
inductive FileEvent where
  | failed (reason : String)
  | succeeded (output : String) (moved : List (List Char))
deriving DecidableEq, Repr

/-- Loop state of `convert_files`: the `conversion_errors` and
`converted_files` accumulators, the shared per-session `media` extraction
directory and `img` directory, and the per-file event trace. -/
structure BatchState where
  errors : List String
  converted : List String
  media : List MFile
  img : List (List Char × Nat)
  trace : List FileEvent
deriving DecidableEq, Repr

/-- The body of the `for file in files` loop of `convert_files`
(src/app.py lines 799-973). -/
def batchStep (output_format : String) (st : BatchState) (f : UpFile) :
    BatchState :=
  if f.filename ≠ "" ∧ allowed_file f.filename then
    let input_format := (get_input_format f.filename).getD "markdown"
    let preOutcome : Option String :=
      if input_format = "pdf" ∨ input_format = "pptx" then f.preprocessErr else none
    match preOutcome with
    | some e =>
      { st with errors := st.errors ++ [f.filename ++ ": " ++ e],
                trace := st.trace ++ [.failed (f.filename ++ ": " ++ e)] }
    | none =>
      if f.inputMissing then
        { st with
            errors := st.errors ++ [f.filename ++ ": Input file missing before Pandoc call"],
            trace := st.trace ++ [.failed (f.filename ++ ": Input file missing before Pandoc call")] }
      else
        let outName := output_filename output_format f.filename
        let media1 := st.media ++ f.extracted
        match f.pandocErr with
        | some e =>
          { st with media := media1,
                    errors := st.errors ++ [f.filename ++ ": " ++ e],
                    trace := st.trace ++ [.failed (f.filename ++ ": " ++ e)] }
        | none =>
          let r := organize_media_files media1 st.img
          { errors := st.errors, converted := st.converted ++ [outName],
            media := [], img := r.1,
            trace := st.trace ++ [.succeeded outName r.2] }
  else
    { st with errors := st.errors ++ ["Invalid file type: " ++ f.filename],
              trace := st.trace ++ [.failed ("Invalid file type: " ++ f.filename)] }

/-- The HTTP-level outcome of `convert_files`: a 400 error response or the
ZIP of the converted files and the `img` directory. -/
inductive BatchResult where
  | badRequest (msg : String)
  | ok (converted : List String) (img : List (List Char × Nat))
deriving DecidableEq, Repr

/-- `convert_files` (src/app.py lines 758-1020), paired with the per-file
event trace. -/
def convert_files (files : List UpFile) (rawFormat : String) :
    BatchResult × List FileEvent :=
  let fmt0 := pyLower (pyStrip rawFormat)
  if files = [] ∨ files.all (fun f => f.filename = "") then
    (.badRequest "No files selected", [])
  else if fmt0 = "" ∨ pyStrip fmt0 = "" then
    (.badRequest "Output format is required", [])
  else
    let output_format := map_output_format fmt0
    let final := files.foldl (batchStep output_format) ⟨[], [], [], [], []⟩
    if final.converted = [] then
      (.badRequest ("No files were successfully converted." ++
        (if final.errors ≠ [] then
          " Errors: " ++ String.intercalate "; " final.errors else "")),
       final.trace)
    else
      (.ok final.converted final.img, final.trace)

/-- Declarative per-file failure predicate: `some reason` exactly when the
loop body of `convert_files` records a conversion error for the file, `none`
when the file converts successfully.  This mirrors, branch by branch, the
guard structure of `batchStep`. -/
def fileFailureReason (f : UpFile) : Option String :=
  if f.filename ≠ "" ∧ allowed_file f.filename then
    match (if (get_input_format f.filename).getD "markdown" = "pdf" ∨
             (get_input_format f.filename).getD "markdown" = "pptx" then
             f.preprocessErr else none) with
    | some e => some (f.filename ++ ": " ++ e)
    | none =>
      if f.inputMissing then
        some (f.filename ++ ": Input file missing before Pandoc call")
      else
        match f.pandocErr with
        | some e => some (f.filename ++ ": " ++ e)
        | none => none
  else some ("Invalid file type: " ++ f.filename)

/-! ## Reference rewriting `fix_image_paths_in_file`
(src/app.py lines 677-722).

Each `re.sub` call is embedded as a leftmost-match scanner: at every
position the pattern is tried; a successful match is replaced (exactly as
the corresponding replacement lambda prescribes) and scanning resumes after
the match, while a failed position emits its character unchanged. -/

/-- `os.path.basename`: the part after the last `'/'`. -/
def pyBasename (l : List Char) : List Char :=
  (l.reverse.takeWhile (fun c => !(c = '/'))).reverse

/-- Split a list at the first occurrence of `stop`, with the decomposition
carried as a certificate (the matched group is `stop`-free). -/
def splitAtChar (stop : Char) :
    (l : List Char) → Option {p : List Char × List Char //
      l = p.1 ++ stop :: p.2 ∧ stop ∉ p.1}
  | [] => none
  | c :: cs =>
    if h : c = stop then some ⟨([], cs), by simp [h]⟩
    else
      match splitAtChar stop cs with
      | some ⟨p, hp⟩ => some ⟨(c :: p.1, p.2), by
          refine ⟨by rw [hp.1]; rfl, ?_⟩
          simp only [List.mem_cons, not_or]
          exact ⟨fun he => h he.symm, hp.2⟩⟩
      | none => none

/-- The literal `src="` of the HTML pattern `src="([^"]*)"`. -/
def openerHtml : List Char := ['s', 'r', 'c', '=', '"']

/-- The replacement of the HTML branch: an empty group is left as
`m.group(0)`, otherwise the path becomes `img/<basename>`. -/
def htmlRepl (grp : List Char) : List Char :=
  if grp = [] then openerHtml ++ ['"']
  else openerHtml ++ ("img/".data ++ pyBasename grp) ++ ['"']

/-- Match attempt of `src="([^"]*)"` at the head of `l`, returning the
replacement text and the remainder after the match. -/
def htmlTry (l : List Char) :
    Option {p : List Char × List Char // p.2.length < l.length} :=
  if h : openerHtml.isPrefixOf l then
    match splitAtChar '"' (l.drop 5) with
    | some ⟨(grp, rem), hp⟩ =>
      some ⟨(htmlRepl grp, rem), by
        show rem.length < l.length
        have heq := hp.1
        dsimp only at heq
        have hlen := congrArg List.length heq
        have hpre : 5 ≤ l.length := by
          have := (List.isPrefixOf_iff_prefix.mp h).length_le
          simpa [openerHtml] using this
        simp only [List.length_drop, List.length_append, List.length_cons] at hlen
        omega⟩
    | none => none
  else none

/-- The replacement of the Markdown branch `![alt](path)`:
`![alt](img/<basename>)`, alt text preserved. -/
def mdRepl (alt path : List Char) : List Char :=
  '!' :: '[' :: alt ++ ']' :: '(' :: ("img/".data ++ pyBasename path) ++ [')']

/-- Match attempt of `!\[([^\]]*)\]\(([^)]+)\)` at the head of `l`. -/
def mdTry (l : List Char) :
    Option {p : List Char × List Char // p.2.length < l.length} :=
  match l with
  | '!' :: '[' :: r1 =>
    match splitAtChar ']' r1 with
    | some ⟨(alt, r2), hp1⟩ =>
      match _hr2 : r2 with
      | '(' :: r3 =>
        match splitAtChar ')' r3 with
        | some ⟨(path, rem), hp2⟩ =>
          if path = [] then none
          else some ⟨(mdRepl alt path, rem), by
            show rem.length < ('!' :: '[' :: r1).length
            have he1 := hp1.1
            have he2 := hp2.1
            dsimp only at he1 he2
            have h1 := congrArg List.length he1
            have h2 := congrArg List.length he2
            simp only [List.length_append, List.length_cons] at h1 h2
            simp only [List.length_cons]
            omega⟩
        | none => none
      | _ => none
    | none => none
  | _ => none

/-- The literal `.. image:: ` of the reStructuredText pattern
`\.\. image:: ([^\n]+)`. -/
def openerRst : List Char :=
  ['.', '.', ' ', 'i', 'm', 'a', 'g', 'e', ':', ':', ' ']

/-- The replacement of the RST branch: `.. image:: img/<basename>`. -/
def rstRepl (grp : List Char) : List Char :=
  openerRst ++ ("img/".data ++ pyBasename grp)

/-- Match attempt of `\.\. image:: ([^\n]+)` at the head of `l`: the group
runs to the end of the line and must be nonempty. -/
def rstTry (l : List Char) :
    Option {p : List Char × List Char // p.2.length < l.length} :=
  if h : openerRst.isPrefixOf l then
    if hg : (l.drop 11).takeWhile (fun c => !(c = '\n')) = [] then none
    else
      some ⟨(rstRepl ((l.drop 11).takeWhile (fun c => !(c = '\n'))),
             (l.drop 11).dropWhile (fun c => !(c = '\n'))), by
        show ((l.drop 11).dropWhile (fun c => !(c = '\n'))).length < l.length
        have hsplit := List.takeWhile_append_dropWhile
          (p := fun c => !(c = '\n')) (l := l.drop 11)
        have hlen := congrArg List.length hsplit
        have hpre : 11 ≤ l.length := by
          have := (List.isPrefixOf_iff_prefix.mp h).length_le
          simpa [openerRst] using this
        have hgpos : 0 < ((l.drop 11).takeWhile (fun c => !(c = '\n'))).length :=
          List.length_pos.mpr hg
        simp only [List.length_append, List.length_drop] at hlen
        omega⟩
  else none

/-- The literal `image::` of the AsciiDoc pattern
`image::([^[]+)\[([^\]]*)\]`. -/
def openerAdoc : List Char := ['i', 'm', 'a', 'g', 'e', ':', ':']

/-- The replacement of the AsciiDoc branch: `image::img/<basename>[attrs]`,
attributes preserved. -/
def adocRepl (target attrs : List Char) : List Char :=
  openerAdoc ++ ("img/".data ++ pyBasename target) ++ '[' :: attrs ++ [']']

/-- Match attempt of `image::([^[]+)\[([^\]]*)\]` at the head of `l`. -/
def adocTry (l : List Char) :
    Option {p : List Char × List Char // p.2.length < l.length} :=
  if h : openerAdoc.isPrefixOf l then
    match splitAtChar '[' (l.drop 7) with
    | some ⟨(target, r2), hp1⟩ =>
      if target = [] then none
      else
        match splitAtChar ']' r2 with
        | some ⟨(attrs, rem), hp2⟩ =>
          some ⟨(adocRepl target attrs, rem), by
            show rem.length < l.length
            have he1 := hp1.1
            have he2 := hp2.1
            dsimp only at he1 he2
            have h1 := congrArg List.length he1
            have h2 := congrArg List.length he2
            have hpre : 7 ≤ l.length := by
              have := (List.isPrefixOf_iff_prefix.mp h).length_le
              simpa [openerAdoc] using this
            simp only [List.length_drop, List.length_append, List.length_cons] at h1 h2
            omega⟩
        | none => none
    | none => none
  else none

/-- Leftmost-match scan-and-replace worker; the fuel argument only forces
structural termination and is irrelevant once it dominates the input
length. -/
def scanAux (try? : (l : List Char) →
    Option {p : List Char × List Char // p.2.length < l.length}) :
    Nat → List Char → List Char
  | 0, l => l
  | _ + 1, [] => []
  | fuel + 1, c :: cs =>
    match try? (c :: cs) with
    | some ⟨(r, rem), _⟩ => r ++ scanAux try? fuel rem
    | none => c :: scanAux try? fuel cs

/-- `re.sub` with a function replacement, as a leftmost-match rewrite. -/
def scanRewrite (try? : (l : List Char) →
    Option {p : List Char × List Char // p.2.length < l.length})
    (l : List Char) : List Char :=
  scanAux try? l.length l

/-- `fix_image_paths_in_file` (src/app.py lines 677-722) on the file's
content: one pattern family per output-format group, all other formats left
untouched. -/
def fix_image_paths_in_file (output_format : String) (content : List Char) :
    List Char :=
  if output_format ∈ (["html", "html5", "xhtml"] : List String) then
    scanRewrite htmlTry content
  else if output_format ∈ (["markdown", "gfm", "commonmark", "commonmark_x"] : List String) then
    scanRewrite mdTry content
  else if output_format ∈ (["rst"] : List String) then
    scanRewrite rstTry content
  else if output_format ∈ (["asciidoc"] : List String) then
    scanRewrite adocTry content
  else content

/-! ## Helper lemmas -/

theorem lastExt_eq_none (l : List Char) (h : '.' ∉ l) : lastExt l = none := by
  induction l with
  | nil => rfl
  | cons c cs ih =>
    simp only [List.mem_cons, not_or] at h
    have hc : ¬(c = '.') := fun he => h.1 he.symm
    simp [lastExt, ih h.2, hc]

theorem lastExt_append_dot (stem ext : List Char) (h : '.' ∉ ext) :
    lastExt (stem ++ '.' :: ext) = some ext := by
  induction stem with
  | nil => simp [lastExt, lastExt_eq_none ext h]
  | cons c cs ih => simp [lastExt, ih]

theorem char_ofNat_toNat {n : Nat} (h : n < 55296) : (Char.ofNat n).toNat = n := by
  unfold Char.ofNat
  split
  · rfl
  · rename_i hv
    exact absurd (Or.inl h) hv

theorem pyIsSpace_of_ge (d : Char) (hd : 33 ≤ d.toNat) : pyIsSpace d = false := by
  simp only [pyIsSpace, Bool.or_eq_false_iff, decide_eq_false_iff_not]
  refine ⟨⟨⟨⟨⟨?_, ?_⟩, ?_⟩, ?_⟩, ?_⟩, ?_⟩ <;>
    (intro he; subst he; exact absurd hd (by decide))

theorem pyIsSpace_toLower (c : Char) : pyIsSpace c.toLower = pyIsSpace c := by
  by_cases h : c.toNat ≥ 65 ∧ c.toNat ≤ 90
  · have hl : c.toLower = Char.ofNat (c.toNat + 32) := by
      unfold Char.toLower
      simp [h]
    have h1 : (Char.ofNat (c.toNat + 32)).toNat = c.toNat + 32 :=
      char_ofNat_toNat (by omega)
    rw [hl, pyIsSpace_of_ge _ (by omega), pyIsSpace_of_ge c (by omega)]
  · have hl : c.toLower = c := by
      unfold Char.toLower
      simp [h]
    rw [hl]

theorem dropWhile_append_of_all {p : Char → Bool} (w l : List Char)
    (hw : ∀ c ∈ w, p c = true) :
    List.dropWhile p (w ++ l) = List.dropWhile p l := by
  induction w with
  | nil => rfl
  | cons c cs ih =>
    simp only [List.cons_append, List.dropWhile_cons, hw c (by simp)]
    exact ih (fun d hd => hw d (by simp [hd]))

theorem dropWhile_append_of_ne_nil {p : Char → Bool} (l t : List Char)
    (h : List.dropWhile p l ≠ []) :
    List.dropWhile p (l ++ t) = List.dropWhile p l ++ t := by
  induction l with
  | nil => exact absurd rfl h
  | cons c cs ih =>
    by_cases hc : p c = true
    · simp only [List.dropWhile_cons, hc, if_true, List.cons_append]
      simp only [List.dropWhile_cons, hc, if_true] at h
      exact ih h
    · simp only [List.dropWhile_cons, hc, List.cons_append]
      simp [hc]

theorem pyStripL_pad (w1 w2 l : List Char) (h1 : ∀ c ∈ w1, pyIsSpace c = true)
    (h2 : ∀ c ∈ w2, pyIsSpace c = true) :
    pyStripL (w1 ++ l ++ w2) = pyStripL l := by
  unfold pyStripL
  rw [List.append_assoc, dropWhile_append_of_all w1 _ h1]
  by_cases hld : List.dropWhile pyIsSpace l = []
  · rw [hld, List.reverse_nil, List.dropWhile_nil, List.reverse_nil]
    have hall : ∀ c ∈ l, pyIsSpace c = true := by
      simpa [List.dropWhile_eq_nil_iff] using hld
    rw [dropWhile_append_of_all l w2 hall,
      List.dropWhile_eq_nil_iff.mpr (fun c hc => h2 c hc)]
    rfl
  · rw [dropWhile_append_of_ne_nil l w2 hld, List.reverse_append,
      dropWhile_append_of_all _ _ (fun c hc => h2 c (List.mem_reverse.mp hc))]

theorem pyStripL_map_toLower (l : List Char) :
    pyStripL (l.map Char.toLower) = (pyStripL l).map Char.toLower := by
  unfold pyStripL
  have hdw : ∀ m : List Char,
      List.dropWhile pyIsSpace (m.map Char.toLower) =
        (List.dropWhile pyIsSpace m).map Char.toLower := by
    intro m
    induction m with
    | nil => rfl
    | cons c cs ih =>
      simp only [List.map_cons, List.dropWhile_cons, pyIsSpace_toLower]
      by_cases h : pyIsSpace c = true
      · simp [h, ih]
      · simp [h]
  rw [hdw, ← List.map_reverse, hdw, List.map_reverse]

theorem pyStrip_pyLower (s : String) : pyStrip (pyLower s) = pyLower (pyStrip s) := by
  simp [pyStrip, pyLower, pyStripL_map_toLower]

/-! ## C1: input-format resolution -/

/-- C1 (counterexample): the claim says `get_input_format` never raises, but
on a filename with no dot the source indexes `rsplit('.', 1)[1]` out of
range: the embedding returns `none` (an `IndexError`) on `"README"`. -/
theorem get_input_format_raises_on_dotless : get_input_format "README" = none := by
  decide

/-- C1 (amended): for every filename that contains a dot,
`get_input_format` does not raise and returns the table entry for the
lower-cased text after the last dot, defaulting to `"markdown"`; for every
dot-free filename it raises (`none`). -/
theorem get_input_format_spec :
    (∀ stem ext : List Char, '.' ∉ ext →
      get_input_format (String.mk (stem ++ '.' :: ext)) =
        some (pyDictGet input_format_table (String.mk (ext.map Char.toLower)) "markdown")) ∧
    (∀ f : String, '.' ∉ f.data → get_input_format f = none) := by
  constructor
  · intro stem ext h
    simp [get_input_format, lastExt_append_dot stem ext h]
  · intro f h
    simp [get_input_format, lastExt_eq_none f.data h]

/-- C1 (witness): concrete instances of the amended claim: a known mixed-case
extension resolves through the table, an unknown extension falls back to
`"markdown"`, and a dot-free name raises. -/
theorem get_input_format_spec_witness :
    get_input_format (String.mk ("report".data ++ '.' :: "DocX".data)) = some "docx" ∧
    get_input_format (String.mk ("notes".data ++ '.' :: "zzz".data)) = some "markdown" ∧
    get_input_format "Makefile" = none := by
  refine ⟨?_, ?_, get_input_format_spec.2 "Makefile" (by decide)⟩
  · rw [get_input_format_spec.1 "report".data "DocX".data (by decide)]
    decide
  · rw [get_input_format_spec.1 "notes".data "zzz".data (by decide)]
    decide

/-! ## C3: case/whitespace invariance of output-format resolution -/

/-- C3 (counterexample): `map_output_format` itself does not trim, so two
inputs differing only in leading whitespace resolve differently
(`" docx"` is returned verbatim while `"docx"` already is canonical). -/
theorem map_output_format_whitespace_sensitive :
    map_output_format " docx" ≠ map_output_format "docx" := by decide

/-- C3 (amended): `map_output_format` is invariant under letter case only;
the trimming happens at its call site in `convert_files`, so the composed
resolution (strip, lower-case, then map) is invariant under both letter case
and leading/trailing whitespace. -/
theorem output_format_resolution_invariance :
    (∀ s t : String, pyLower s = pyLower t →
      map_output_format s = map_output_format t) ∧
    (∀ (s : String) (w1 w2 : List Char),
      (∀ c ∈ w1, pyIsSpace c = true) → (∀ c ∈ w2, pyIsSpace c = true) →
      resolve_output_format (String.mk (w1 ++ s.data ++ w2)) = resolve_output_format s) ∧
    (∀ s t : String, pyLower s = pyLower t →
      resolve_output_format s = resolve_output_format t) := by
  refine ⟨?_, ?_, ?_⟩
  · intro s t h
    simp [map_output_format, h]
  · intro s w1 w2 h1 h2
    simp only [resolve_output_format, pyStrip, pyLower]
    have : pyStripL (String.mk (w1 ++ s.data ++ w2)).data = pyStripL s.data :=
      pyStripL_pad w1 w2 s.data h1 h2
    rw [this]
  · intro s t h
    simp only [resolve_output_format]
    have hs : pyLower (pyStrip s) = pyLower (pyStrip t) := by
      rw [← pyStrip_pyLower, ← pyStrip_pyLower, h]
    rw [hs]

/-- C3 (witness): concrete instances: case invariance of the raw mapper and
whitespace invariance of the composed resolution. -/
theorem output_format_resolution_invariance_witness :
    map_output_format "WoRd" = map_output_format "word" ∧
    resolve_output_format (String.mk (" ".data ++ "word".data ++ "  ".data)) =
      resolve_output_format "word" := by
  constructor
  · exact output_format_resolution_invariance.1 "WoRd" "word" (by decide)
  · exact output_format_resolution_invariance.2.1 "word" " ".data "  ".data
      (by decide) (by decide)

/-! ## C4: idempotence of output-format resolution -/

/-- C4: the claim (and the docstring of `map_output_format`, which promises
actual Pandoc format names) is violated by the code: the file-extension
table was pasted into the alias dict, and its duplicate keys override the
canonical entries, so canonical engine tags are not fixed points
(`gfm` becomes the extension `md`, etc.) and resolution is not idempotent
(`github` resolves to `gfm`, which resolves again to `md`). -/
theorem map_output_format_not_idempotent :
    map_output_format "github" = "gfm" ∧
    map_output_format "gfm" = "md" ∧
    map_output_format (map_output_format "github") ≠ map_output_format "github" ∧
    map_output_format "epub2" = "epub" ∧
    map_output_format "docbook4" = "xml" ∧
    map_output_format "spip" = "txt" ∧
    map_output_format "texinfo" = "texi" ∧
    map_output_format "asciidoc" = "adoc" := by decide

/-! ## C7: slide-deck extraction structure -/

theorem para_foldl (ps : List String) (acc : List String) :
    ps.foldl (fun a para => if pyStrip para = "" then a else a ++ [pyStrip para, ""]) acc =
      acc ++ ps.flatMap (fun para => if pyStrip para = "" then [] else [pyStrip para, ""]) := by
  induction ps generalizing acc with
  | nil => simp
  | cons p ps ih =>
    simp only [List.foldl_cons, List.flatMap_cons]
    by_cases h : pyStrip p = ""
    · simp [h, ih]
    · simp [h, ih]

theorem pptxShapeAcc_eq (acc : List String) (sh : Option String) :
    pptxShapeAcc acc sh = acc ++ shapeLinesSpec sh := by
  cases sh with
  | none => simp [pptxShapeAcc, shapeLinesSpec]
  | some raw =>
    simp only [pptxShapeAcc, shapeLinesSpec]
    by_cases h1 : pyStrip raw = ""
    · simp [h1]
    · by_cases h2 : ((pyStrip raw).length < 100 && pyIsUpperL (pyStrip raw).data) = true
      · simp [h1, h2]
      · simp [h1, h2, para_foldl]

theorem shape_foldl (shapes : List (Option String)) (acc : List String) :
    shapes.foldl pptxShapeAcc acc = acc ++ shapes.flatMap shapeLinesSpec := by
  induction shapes generalizing acc with
  | nil => simp
  | cons sh rest ih =>
    simp only [List.foldl_cons]
    rw [pptxShapeAcc_eq, ih, List.flatMap_cons, List.append_assoc]

theorem slide_foldl (xs : List (Nat × List (Option String))) (acc : List String) :
    xs.foldl pptxSlideAcc acc =
      acc ++ xs.flatMap
        (fun p => ["# Slide " ++ Nat.repr p.1, ""] ++ p.2.flatMap shapeLinesSpec ++
          ["---", ""]) := by
  induction xs generalizing acc with
  | nil => simp
  | cons x rest ih =>
    simp only [List.foldl_cons, pptxSlideAcc]
    rw [shape_foldl, ih, List.flatMap_cons]
    simp [List.append_assoc]

/-- C7: the line list produced by `convert_pptx_to_markdown` is, slide by
slide in presentation order, a `# Slide N` heading (N counted from 1), a
blank line, the per-shape lines — where text under 100 characters and
entirely upper-case is promoted to a `##` sub-heading, and any other text
contributes its non-blank stripped paragraphs as separate lines — followed by
a `---` horizontal-rule separator after each slide. -/
theorem convert_pptx_to_markdown_structure (slides : List (List (Option String))) :
    convert_pptx_to_markdown_lines slides =
      slides.enum.flatMap (fun p => slideBlockSpec p.1 p.2) := by
  unfold convert_pptx_to_markdown_lines
  rw [slide_foldl]
  simp only [List.nil_append]
  have hmap : ∀ (l : List (Nat × List (Option String))),
      (l.map (fun p => (p.1 + 1, p.2))).flatMap
          (fun p => ["# Slide " ++ Nat.repr p.1, ""] ++ p.2.flatMap shapeLinesSpec ++
            ["---", ""]) =
        l.flatMap (fun p => slideBlockSpec p.1 p.2) := by
    intro l
    induction l with
    | nil => rfl
    | cons x rest ih =>
      simp only [List.map_cons, List.flatMap_cons, ih, slideBlockSpec]
  exact hmap slides.enum

/-! ## C8: the output validator rejects missing and empty files -/

/-! ## C6: media relocation -/

theorem digitVal_digitChar {m : Nat} (h : m < 10) :
    digitVal (Nat.digitChar m) = m := by
  interval_cases m <;> decide

theorem decVal_append (xs : List Char) (c : Char) :
    decVal (xs ++ [c]) = 10 * decVal xs + digitVal c := by
  simp [decVal, List.foldl_append]

theorem natDecAux_val : ∀ fuel n, n ≤ fuel → decVal (natDecAux fuel n) = n := by
  intro fuel
  induction fuel with
  | zero =>
    intro n hn
    interval_cases n
    decide
  | succ fuel ih =>
    intro n hn
    by_cases h : n < 10
    · simp only [natDecAux, if_pos h, decVal, List.foldl_cons, List.foldl_nil]
      simp [digitVal_digitChar h]
    · simp only [natDecAux, if_neg h]
      rw [decVal_append, ih (n / 10) (by omega), digitVal_digitChar (Nat.mod_lt n (by omega))]
      omega

theorem natDec_val (n : Nat) : decVal (natDec n) = n :=
  natDecAux_val n n (Nat.le_refl n)

theorem natDec_inj {a b : Nat} (h : natDec a = natDec b) : a = b := by
  have := congrArg decVal h
  rwa [natDec_val, natDec_val] at this

theorem suffixed_inj {base ext : List Char} {a b : Nat}
    (h : suffixed base ext a = suffixed base ext b) : a = b := by
  unfold suffixed at h
  have h1 := List.append_cancel_left h
  have h2 : natDec a ++ ext = natDec b ++ ext := by
    injection h1
  exact natDec_inj (List.append_cancel_right h2)

theorem exists_free_suffixed (existing : List (List Char)) (base ext : List Char) :
    ∃ k, k < existing.length + 1 ∧ suffixed base ext (k + 1) ∉ existing := by
  by_contra hc
  push_neg at hc
  set lst := (List.range (existing.length + 1)).map (fun k => suffixed base ext (k + 1)) with hlst
  have hnd : lst.Nodup := by
    refine List.Nodup.map ?_ (List.nodup_range _)
    intro a b hab
    have := suffixed_inj hab
    omega
  have hsub : lst ⊆ existing := by
    intro x hx
    rw [hlst, List.mem_map] at hx
    obtain ⟨k, hk, rfl⟩ := hx
    exact hc k (List.mem_range.mp hk)
  have hle := (hnd.subperm hsub).length_le
  simp [hlst] at hle

theorem pickDstLoop_exit (existing : List (List Char)) (base ext : List Char)
    (dst : List Char) (h : dst ∉ existing) :
    ∀ fuel counter, pickDstLoop existing base ext fuel counter dst = dst := by
  intro fuel counter
  cases fuel with
  | zero => rfl
  | succ fuel => simp [pickDstLoop, h]

theorem pickDstLoop_from (existing : List (List Char)) (base ext : List Char) :
    ∀ fuel counter,
      (∃ k, k < fuel ∧ suffixed base ext (counter + k) ∉ existing) →
      ∃ c, counter ≤ c ∧
        pickDstLoop existing base ext fuel (counter + 1) (suffixed base ext counter) =
          suffixed base ext c ∧
        suffixed base ext c ∉ existing ∧
        ∀ j, counter ≤ j → j < c → suffixed base ext j ∈ existing := by
  intro fuel
  induction fuel with
  | zero =>
    intro counter h
    obtain ⟨k, hk, _⟩ := h
    omega
  | succ fuel ih =>
    intro counter h
    by_cases hmem : suffixed base ext counter ∈ existing
    · simp only [pickDstLoop, if_pos hmem]
      obtain ⟨k, hk, hfree⟩ := h
      have hk0 : k ≠ 0 := by
        intro h0
        rw [h0, Nat.add_zero] at hfree
        exact hfree hmem
      obtain ⟨c, hc1, hc2, hc3, hc4⟩ := ih (counter + 1)
        ⟨k - 1, by omega, by
          have : counter + 1 + (k - 1) = counter + k := by omega
          rwa [this]⟩
      refine ⟨c, by omega, hc2, hc3, ?_⟩
      intro j hj1 hj2
      rcases Nat.eq_or_lt_of_le hj1 with rfl | hlt
      · exact hmem
      · exact hc4 j hlt hj2
    · simp only [pickDstLoop, if_neg hmem]
      exact ⟨counter, Nat.le_refl _, rfl, hmem, fun j h1 h2 => absurd (Nat.lt_of_le_of_lt h1 h2) (Nat.lt_irrefl _)⟩

theorem pickDst_eq_of_not_mem {existing : List (List Char)} {file : List Char}
    (h : file ∉ existing) : pickDst existing file = file := by
  unfold pickDst
  exact pickDstLoop_exit existing _ _ file h _ _

theorem pickDst_collision {existing : List (List Char)} {file : List Char}
    (h : file ∈ existing) :
    ∃ c, 1 ≤ c ∧
      pickDst existing file = suffixed (pySplitext file).1 (pySplitext file).2 c ∧
      suffixed (pySplitext file).1 (pySplitext file).2 c ∉ existing ∧
      ∀ j, 1 ≤ j → j < c →
        suffixed (pySplitext file).1 (pySplitext file).2 j ∈ existing := by
  unfold pickDst
  have hstep :
      pickDstLoop existing (pySplitext file).1 (pySplitext file).2
          (existing.length + 2) 1 file =
        pickDstLoop existing (pySplitext file).1 (pySplitext file).2
          (existing.length + 1) 2 (suffixed (pySplitext file).1 (pySplitext file).2 1) := by
    show pickDstLoop existing _ _ (existing.length + 1 + 1) 1 file = _
    simp [pickDstLoop, h]
  rw [hstep]
  obtain ⟨k, hk, hkfree⟩ := exists_free_suffixed existing (pySplitext file).1 (pySplitext file).2
  exact pickDstLoop_from existing _ _ (existing.length + 1) 1
    ⟨k, hk, by simpa [Nat.add_comm] using hkfree⟩

theorem pickDst_fresh (existing : List (List Char)) (file : List Char) :
    pickDst existing file ∉ existing := by
  by_cases h : file ∈ existing
  · obtain ⟨c, _, heq, hfree, _⟩ := pickDst_collision h
    rw [heq]
    exact hfree
  · rw [pickDst_eq_of_not_mem h]
    exact h

theorem imgInsert_fresh {img : List (List Char × Nat)} {k : List Char} {v : Nat}
    (h : k ∉ img.map Prod.fst) : imgInsert img k v = img ++ [(k, v)] := by
  unfold imgInsert
  congr 1
  rw [List.filter_eq_self]
  intro p hp
  simp only [Bool.not_eq_true', decide_eq_false_iff_not]
  intro he
  exact h (List.mem_map.mpr ⟨p, hp, he⟩)

theorem organize_foldl_counts :
    ∀ (files : List MFile) (img : List (List Char × Nat)) (moved : List (List Char)),
      ((files.foldl organizeStep (img, moved)).1).map Prod.snd =
        img.map Prod.snd ++ files.map MFile.content ∧
      (files.foldl organizeStep (img, moved)).2.length = moved.length + files.length := by
  intro files
  induction files with
  | nil => intro img moved; simp
  | cons f fs ih =>
    intro img moved
    have hfresh := pickDst_fresh (img.map Prod.fst) f.name
    simp only [List.foldl_cons, organizeStep, imgInsert_fresh hfresh]
    obtain ⟨h1, h2⟩ := ih (img ++ [(pickDst (img.map Prod.fst) f.name, f.content)])
      (moved ++ [pickDst (img.map Prod.fst) f.name])
    constructor
    · rw [h1]
      simp
    · rw [h2]
      simp
      omega

theorem organize_foldl_nodup :
    ∀ (files : List MFile) (img : List (List Char × Nat)) (moved : List (List Char)),
      (files.map MFile.name).Nodup →
      (∀ f ∈ files, f.name ∉ img.map Prod.fst) →
      files.foldl organizeStep (img, moved) =
        (img ++ files.map (fun f => (f.name, f.content)), moved ++ files.map MFile.name) := by
  intro files
  induction files with
  | nil => intro img moved _ _; simp
  | cons f fs ih =>
    intro img moved hnd hdisj
    rw [List.map_cons, List.nodup_cons] at hnd
    have hn : f.name ∉ img.map Prod.fst := hdisj f (by simp)
    have hdst : pickDst (img.map Prod.fst) f.name = f.name := pickDst_eq_of_not_mem hn
    simp only [List.foldl_cons, organizeStep, hdst, imgInsert_fresh hn]
    rw [ih (img ++ [(f.name, f.content)]) (moved ++ [f.name]) hnd.2 ?_]
    · simp
    · intro g hg
      simp only [List.map_append, List.mem_append, not_or]
      refine ⟨hdisj g (by simp [hg]), ?_⟩
      have hne : g.name ≠ f.name := by
        intro he
        refine hnd.1 ?_
        rw [← he]
        exact List.mem_map.mpr ⟨g, hg, rfl⟩
      simp [hne]

/-- C6: media relocation: (1) for every walk result and prior `img` content,
relocation produces one moved name per walked file and preserves every byte
content (nothing is overwritten or dropped); (2) with no basename collisions
all names are kept unchanged; (3) the destination chooser keeps a free
basename as is, and on a collision returns `base_c.ext` for the least
counter `c ≥ 1` that is free — the numeric suffix is appended before the
extension and incremented until a free name is found. -/
theorem organize_media_files_spec :
    (∀ (files : List MFile) (img0 : List (List Char × Nat)),
      ((organize_media_files files img0).1).map Prod.snd =
        img0.map Prod.snd ++ files.map MFile.content ∧
      (organize_media_files files img0).2.length = files.length) ∧
    (∀ (files : List MFile) (img0 : List (List Char × Nat)),
      (files.map MFile.name).Nodup →
      (∀ f ∈ files, f.name ∉ img0.map Prod.fst) →
      organize_media_files files img0 =
        (img0 ++ files.map (fun f => (f.name, f.content)), files.map MFile.name)) ∧
    (∀ (existing : List (List Char)) (file : List Char),
      (file ∉ existing → pickDst existing file = file) ∧
      (file ∈ existing → ∃ c, 1 ≤ c ∧
        pickDst existing file = suffixed (pySplitext file).1 (pySplitext file).2 c ∧
        suffixed (pySplitext file).1 (pySplitext file).2 c ∉ existing ∧
        ∀ j, 1 ≤ j → j < c →
          suffixed (pySplitext file).1 (pySplitext file).2 j ∈ existing)) := by
  refine ⟨?_, ?_, ?_⟩
  · intro files img0
    have h := organize_foldl_counts files img0 []
    simpa [organize_media_files] using h
  · intro files img0 hnd hdisj
    have h := organize_foldl_nodup files img0 [] hnd hdisj
    simpa [organize_media_files] using h
  · intro existing file
    exact ⟨fun h => pickDst_eq_of_not_mem h, fun h => pickDst_collision h⟩

/-- C6 (witness): relocating two distinct basenames keeps both names, and a
duplicate basename is given the `_1` suffix before its extension while the
original stays free of change. -/
theorem organize_media_files_spec_witness :
    organize_media_files [⟨"a.png".data, 1⟩, ⟨"b.png".data, 2⟩] [] =
      ([("a.png".data, 1), ("b.png".data, 2)], ["a.png".data, "b.png".data]) ∧
    (∃ c, 1 ≤ c ∧
      pickDst ["img1.png".data] "img1.png".data =
        suffixed (pySplitext "img1.png".data).1 (pySplitext "img1.png".data).2 c ∧
      suffixed (pySplitext "img1.png".data).1 (pySplitext "img1.png".data).2 c ∉
        ["img1.png".data] ∧
      ∀ j, 1 ≤ j → j < c →
        suffixed (pySplitext "img1.png".data).1 (pySplitext "img1.png".data).2 j ∈
          ["img1.png".data]) := by
  constructor
  · have h := organize_media_files_spec.2.1
      [⟨"a.png".data, 1⟩, ⟨"b.png".data, 2⟩] [] (by decide) (by decide)
    simpa using h
  · exact (organize_media_files_spec.2.2 ["img1.png".data] "img1.png".data).2 (by decide)

/-! ## C2 and C9: the batch coordinator -/

theorem batchStep_props (fmt : String) (st : BatchState) (f : UpFile) :
    (batchStep fmt st f).errors = st.errors ++ (fileFailureReason f).toList ∧
    (batchStep fmt st f).converted = st.converted ++
      (if fileFailureReason f = none then [output_filename fmt f.filename] else []) ∧
    (batchStep fmt st f).trace.length = st.trace.length + 1 := by
  unfold batchStep fileFailureReason
  by_cases h1 : f.filename ≠ "" ∧ allowed_file f.filename = true
  · simp only [h1, if_true, and_self, if_pos]
    cases hpre : (if (get_input_format f.filename).getD "markdown" = "pdf" ∨
        (get_input_format f.filename).getD "markdown" = "pptx" then
        f.preprocessErr else none) with
    | some e => simp [hpre, h1.1]
    | none =>
      by_cases h2 : f.inputMissing = true
      · simp [hpre, h2, h1.1]
      · cases hpan : f.pandocErr with
        | some e => simp [hpre, h2, hpan, h1.1]
        | none => simp [hpre, h2, hpan, h1.1]
  · simp [h1]

theorem batch_foldl_props :
    ∀ (files : List UpFile) (fmt : String) (st : BatchState),
      (files.foldl (batchStep fmt) st).errors =
        st.errors ++ files.filterMap fileFailureReason ∧
      (files.foldl (batchStep fmt) st).converted =
        st.converted ++ (files.filter (fun f => fileFailureReason f = none)).map
          (fun f => output_filename fmt f.filename) ∧
      (files.foldl (batchStep fmt) st).trace.length = st.trace.length + files.length := by
  intro files
  induction files with
  | nil => intro fmt st; simp
  | cons f fs ih =>
    intro fmt st
    obtain ⟨he, hc, ht⟩ := batchStep_props fmt st f
    obtain ⟨ihe, ihc, iht⟩ := ih fmt (batchStep fmt st f)
    refine ⟨?_, ?_, ?_⟩
    · rw [List.foldl_cons, ihe, he]
      cases hf : fileFailureReason f <;> simp [hf]
    · rw [List.foldl_cons, ihc, hc]
      cases hf : fileFailureReason f <;> simp [hf]
    · rw [List.foldl_cons, iht, ht]
      simp only [List.length_cons]
      omega

/-- C2: provided the request-level guards pass (a nonempty batch and a
nonempty output-format string), `convert_files` processes every file of the
batch (one trace event per file — a failure never aborts the remaining
files); when no file succeeds it returns the 400 failure whose message
aggregates every per-file failure reason in order, and when at least one
file succeeds it returns the success response carrying exactly the succeeded
output filenames. -/
theorem convert_files_batch_spec (files : List UpFile) (raw : String)
    (hfiles : ¬(files = [] ∨ files.all (fun f => f.filename = "") = true))
    (hfmt : ¬(pyLower (pyStrip raw) = "" ∨ pyStrip (pyLower (pyStrip raw)) = "")) :
    ((convert_files files raw).2.length = files.length) ∧
    (files.filter (fun f => fileFailureReason f = none) = [] →
      (convert_files files raw).1 = BatchResult.badRequest
        ("No files were successfully converted." ++
          (if files.filterMap fileFailureReason ≠ [] then
            " Errors: " ++ String.intercalate "; " (files.filterMap fileFailureReason)
          else ""))) ∧
    (files.filter (fun f => fileFailureReason f = none) ≠ [] →
      (convert_files files raw).1 = BatchResult.ok
        ((files.filter (fun f => fileFailureReason f = none)).map
          (fun f => output_filename (map_output_format (pyLower (pyStrip raw))) f.filename))
        ((files.foldl (batchStep (map_output_format (pyLower (pyStrip raw))))
          ⟨[], [], [], [], []⟩).img)) := by
  obtain ⟨he, hc, ht⟩ := batch_foldl_props files
    (map_output_format (pyLower (pyStrip raw))) ⟨[], [], [], [], []⟩
  simp only [List.nil_append] at he hc
  unfold convert_files
  rw [if_neg hfiles, if_neg hfmt]
  refine ⟨?_, ?_, ?_⟩
  · by_cases hempty : (files.foldl (batchStep (map_output_format (pyLower (pyStrip raw))))
        ⟨[], [], [], [], []⟩).converted = []
    · simp only [hempty, if_pos]
      simpa using ht
    · simp only [hempty, if_neg]
      simpa using ht
  · intro hnone
    have hempty : (files.foldl (batchStep (map_output_format (pyLower (pyStrip raw))))
        ⟨[], [], [], [], []⟩).converted = [] := by
      rw [hc, hnone]
      rfl
    simp only [hempty, if_pos, he]
  · intro hsome
    have hne : (files.filter (fun f => fileFailureReason f = none)).map
        (fun f => output_filename (map_output_format (pyLower (pyStrip raw))) f.filename) ≠
          [] := by
      intro hcontra
      exact hsome (List.map_eq_nil_iff.mp hcontra)
    simp only [hc]
    rw [if_neg hne]

/-- C2 (witness): a batch whose only file has a disallowed extension yields
the aggregated 400 failure, and a batch with one succeeding file yields the
success response carrying its output filename. -/
theorem convert_files_batch_spec_witness :
    (convert_files [⟨"b.zzz9", none, false, none, []⟩] "html").1 =
      BatchResult.badRequest
        ("No files were successfully converted." ++
          (if ([⟨"b.zzz9", none, false, none, []⟩] : List UpFile).filterMap
              fileFailureReason ≠ [] then
            " Errors: " ++ String.intercalate "; "
              (([⟨"b.zzz9", none, false, none, []⟩] : List UpFile).filterMap
                fileFailureReason)
          else "")) ∧
    (convert_files [⟨"a.md", none, false, none, []⟩] "html").1 =
      BatchResult.ok
        ((([⟨"a.md", none, false, none, []⟩] : List UpFile).filter
            (fun f => fileFailureReason f = none)).map
          (fun f => output_filename (map_output_format (pyLower (pyStrip "html"))) f.filename))
        ((([⟨"a.md", none, false, none, []⟩] : List UpFile).foldl
          (batchStep (map_output_format (pyLower (pyStrip "html"))))
          ⟨[], [], [], [], []⟩).img) := by
  constructor
  · exact (convert_files_batch_spec [⟨"b.zzz9", none, false, none, []⟩] "html"
      (by decide) (by decide)).2.1 (by decide)
  · exact (convert_files_batch_spec [⟨"a.md", none, false, none, []⟩] "html"
      (by decide) (by decide)).2.2 (by decide)

/-- C9: all files of one batch share the per-session `media` extraction
directory and `img` directory: when the first file's conversion fails after
the engine has already deposited media in the shared extraction directory,
that media is not cleaned up, and the next file's success relocates it — so
the succeeding file's `moved_media_files` list contains the names of assets
extracted from the failed file. -/
theorem shared_media_across_batch (f1 f2 : UpFile) (raw e : String)
    (h1name : f1.filename ≠ "") (h1allowed : allowed_file f1.filename = true)
    (h1pre : f1.preprocessErr = none) (h1miss : f1.inputMissing = false)
    (h1pan : f1.pandocErr = some e)
    (h2name : f2.filename ≠ "") (h2allowed : allowed_file f2.filename = true)
    (h2pre : f2.preprocessErr = none) (h2miss : f2.inputMissing = false)
    (h2pan : f2.pandocErr = none)
    (hfmt : ¬(pyLower (pyStrip raw) = "" ∨ pyStrip (pyLower (pyStrip raw)) = ""))
    (hnd : ((f1.extracted ++ f2.extracted).map MFile.name).Nodup) :
    (convert_files [f1, f2] raw).2 =
      [FileEvent.failed (f1.filename ++ ": " ++ e),
       FileEvent.succeeded
         (output_filename (map_output_format (pyLower (pyStrip raw))) f2.filename)
         ((f1.extracted ++ f2.extracted).map MFile.name)] := by
  have hguard : ¬([f1, f2] = [] ∨ ([f1, f2].all (fun f => f.filename = "")) = true) := by
    simp [h1name]
  unfold convert_files
  rw [if_neg hguard, if_neg hfmt]
  set fmt := map_output_format (pyLower (pyStrip raw)) with hfmtdef
  have hstep1 : batchStep fmt ⟨[], [], [], [], []⟩ f1 =
      ⟨[f1.filename ++ ": " ++ e], [], f1.extracted, [],
        [FileEvent.failed (f1.filename ++ ": " ++ e)]⟩ := by
    unfold batchStep
    simp [h1name, h1allowed, h1pre, h1miss, h1pan]
  have horg : organize_media_files (f1.extracted ++ f2.extracted) [] =
      ([] ++ (f1.extracted ++ f2.extracted).map (fun f => (f.name, f.content)),
        (f1.extracted ++ f2.extracted).map MFile.name) :=
    organize_foldl_nodup (f1.extracted ++ f2.extracted) [] [] hnd (by simp)
  have hstep2 : batchStep fmt
      ⟨[f1.filename ++ ": " ++ e], [], f1.extracted, [],
        [FileEvent.failed (f1.filename ++ ": " ++ e)]⟩ f2 =
      ⟨[f1.filename ++ ": " ++ e], [output_filename fmt f2.filename],
        [], (f1.extracted ++ f2.extracted).map (fun f => (f.name, f.content)),
        [FileEvent.failed (f1.filename ++ ": " ++ e),
         FileEvent.succeeded (output_filename fmt f2.filename)
           ((f1.extracted ++ f2.extracted).map MFile.name)]⟩ := by
    unfold batchStep
    simp [h2name, h2allowed, h2pre, h2miss, h2pan, horg]
  simp only [List.foldl_cons, List.foldl_nil, hstep1, hstep2]
  simp

/-- C9 (witness): a concrete two-file batch: `a.docx` fails after extracting
`logo.png`, then `b.docx` succeeds and its relocated-media list contains
`logo.png`, the asset extracted from the other file. -/
theorem shared_media_across_batch_witness :
    (convert_files
        [⟨"a.docx", none, false, some "Pandoc error: boom", [⟨"logo.png".data, 7⟩]⟩,
         ⟨"b.docx", none, false, none, []⟩] "html").2 =
      [FileEvent.failed ("a.docx" ++ ": " ++ "Pandoc error: boom"),
       FileEvent.succeeded
         (output_filename (map_output_format (pyLower (pyStrip "html"))) "b.docx")
         ((([⟨"logo.png".data, 7⟩] : List MFile) ++ ([] : List MFile)).map MFile.name)] :=
  shared_media_across_batch
    ⟨"a.docx", none, false, some "Pandoc error: boom", [⟨"logo.png".data, 7⟩]⟩
    ⟨"b.docx", none, false, none, []⟩ "html" "Pandoc error: boom"
    (by decide) (by decide) rfl rfl rfl
    (by decide) (by decide) rfl rfl rfl
    (by decide) (by decide)

/-! ## C5 and C10: reference rewriting -/

section Scan

variable (T : (l : List Char) → Option {p : List Char × List Char // p.2.length < l.length})

theorem scanAux_irrel : ∀ fuel1 fuel2 l, l.length ≤ fuel1 → l.length ≤ fuel2 →
    scanAux T fuel1 l = scanAux T fuel2 l := by
  intro fuel1
  induction fuel1 with
  | zero =>
    intro fuel2 l h1 _h2
    have hl : l = [] := List.eq_nil_of_length_eq_zero (Nat.le_zero.mp h1)
    subst hl
    cases fuel2 <;> rfl
  | succ fuel1 ih =>
    intro fuel2 l h1 h2
    cases l with
    | nil => cases fuel2 <;> rfl
    | cons c cs =>
      cases fuel2 with
      | zero => simp at h2
      | succ fuel2 =>
        simp only [scanAux]
        cases hT : T (c :: cs) with
        | some p =>
          obtain ⟨⟨r, rem⟩, hlt⟩ := p
          simp only [hT]
          have hlt' : rem.length < (c :: cs).length := hlt
          simp only [List.length_cons] at hlt' h1 h2
          exact congrArg (r ++ ·) (ih fuel2 rem (by omega) (by omega))
        | none =>
          simp only [hT]
          simp only [List.length_cons] at h1 h2
          exact congrArg (c :: ·) (ih fuel2 cs (by omega) (by omega))

theorem scanRewrite_none {c : Char} {cs : List Char} (h : T (c :: cs) = none) :
    scanRewrite T (c :: cs) = c :: scanRewrite T cs := by
  unfold scanRewrite
  simp only [List.length_cons, scanAux, h]

theorem scanRewrite_some {l : List Char}
    {p : {p : List Char × List Char // p.2.length < l.length}}
    (h : T l = some p) :
    scanRewrite T l = p.1.1 ++ scanRewrite T p.1.2 := by
  obtain ⟨⟨r, rem⟩, hlt⟩ := p
  cases l with
  | nil => simp at hlt
  | cons c cs =>
    show scanRewrite T (c :: cs) = r ++ scanRewrite T rem
    unfold scanRewrite
    simp only [List.length_cons, scanAux, h]
    have hlt' : rem.length < (c :: cs).length := hlt
    simp only [List.length_cons] at hlt'
    exact congrArg (r ++ ·) (scanAux_irrel T cs.length rem.length rem (by omega) (Nat.le_refl _))

theorem scanRewrite_id (l : List Char) (h : ∀ n, T (l.drop n) = none) :
    scanRewrite T l = l := by
  induction l with
  | nil => rfl
  | cons c cs ih =>
    have h0 : T (c :: cs) = none := h 0
    rw [scanRewrite_none T h0, ih ?_]
    intro n
    have := h (n + 1)
    simpa [List.drop_succ_cons] using this

theorem scanRewrite_passThrough (a t : List Char)
    (h : ∀ n, n < a.length → T ((a ++ t).drop n) = none) :
    scanRewrite T (a ++ t) = a ++ scanRewrite T t := by
  induction a with
  | nil => simp
  | cons c a' ih =>
    have h0 : T (c :: (a' ++ t)) = none := by
      have := h 0 (by simp)
      simpa using this
    have harg : ∀ n, n < a'.length → T ((a' ++ t).drop n) = none := by
      intro n hn
      have := h (n + 1) (by simp only [List.length_cons]; omega)
      simpa [List.drop_succ_cons] using this
    rw [List.cons_append, scanRewrite_none T h0, ih harg]
    rfl

theorem scanRewrite_take (k : Nat)
    (hk : ∀ l p, T l = some p → k ≤ p.1.1.length ∧ p.1.1.take k = l.take k) :
    ∀ l, ∀ j, j ≤ k → (scanRewrite T l).take j = l.take j := by
  intro l
  induction l with
  | nil => intro j _; rfl
  | cons c cs ih =>
    intro j hj
    cases hT : T (c :: cs) with
    | some p =>
      rw [scanRewrite_some T hT]
      obtain ⟨hk1, hk2⟩ := hk _ _ hT
      rw [List.take_append_of_le_length (Nat.le_trans hj hk1)]
      calc p.1.1.take j = (p.1.1.take k).take j := by
            rw [List.take_take, Nat.min_eq_left hj]
        _ = ((c :: cs).take k).take j := by rw [hk2]
        _ = (c :: cs).take j := by rw [List.take_take, Nat.min_eq_left hj]
    | none =>
      rw [scanRewrite_none T hT]
      cases j with
      | zero => rfl
      | succ j =>
        simp only [List.take_succ_cons]
        rw [ih j (by omega)]

theorem scanRewrite_head
    (hh : ∀ l p, T l = some p → p.1.1.head? = l.head?) (l : List Char) :
    (scanRewrite T l).head? = l.head? := by
  cases l with
  | nil => rfl
  | cons c cs =>
    cases hT : T (c :: cs) with
    | none =>
      rw [scanRewrite_none T hT]
      rfl
    | some p =>
      rw [scanRewrite_some T hT]
      have hp := hh _ _ hT
      cases hr : p.1.1 with
      | nil => rw [hr] at hp; exact absurd hp (by simp)
      | cons d ds =>
        rw [hr] at hp
        simpa using hp

theorem scanRewrite_idem
    (hstab : ∀ l, T l = none → T (scanRewrite T l) = none)
    (hreplay : ∀ (l : List Char)
      (p : {p : List Char × List Char // p.2.length < l.length}), T l = some p →
      (T (p.1.1 ++ scanRewrite T p.1.2)).map Subtype.val =
        some (p.1.1, scanRewrite T p.1.2)) :
    ∀ l, scanRewrite T (scanRewrite T l) = scanRewrite T l := by
  have main : ∀ N l, l.length ≤ N →
      scanRewrite T (scanRewrite T l) = scanRewrite T l := by
    intro N
    induction N with
    | zero =>
      intro l hl
      have : l = [] := List.eq_nil_of_length_eq_zero (Nat.le_zero.mp hl)
      subst this
      rfl
    | succ N ih =>
      intro l hl
      cases l with
      | nil => rfl
      | cons c cs =>
        cases hT : T (c :: cs) with
        | none =>
          rw [scanRewrite_none T hT]
          have hstab' := hstab _ hT
          rw [scanRewrite_none T hT] at hstab'
          rw [scanRewrite_none T hstab']
          simp only [List.length_cons] at hl
          rw [ih cs (by omega)]
        | some p =>
          rw [scanRewrite_some T hT]
          have hrep := hreplay _ _ hT
          cases hq : T (p.1.1 ++ scanRewrite T p.1.2) with
          | none =>
            rw [hq] at hrep
            exact Option.noConfusion hrep
          | some q =>
            rw [hq, Option.map_some'] at hrep
            have hval := Option.some.inj hrep
            have hq1 : q.1.1 = p.1.1 := by rw [hval]
            have hq2 : q.1.2 = scanRewrite T p.1.2 := by rw [hval]
            rw [scanRewrite_some T hq, hq1, hq2]
            have hlt : p.1.2.length < (c :: cs).length := p.2
            simp only [List.length_cons] at hlt hl
            rw [ih p.1.2 (by omega)]
  intro l
  exact main l.length l (Nat.le_refl _)

end Scan

theorem splitAtChar_none {stop : Char} {l : List Char} :
    splitAtChar stop l = none ↔ stop ∉ l := by
  induction l with
  | nil => simp [splitAtChar]
  | cons c cs ih =>
    by_cases h : c = stop
    · subst h
      simp [splitAtChar]
    · simp only [splitAtChar, dif_neg h]
      cases hs : splitAtChar stop cs with
      | some p =>
        obtain ⟨pv, hv⟩ := p
        have hmem : stop ∈ cs := by
          by_contra hc
          rw [ih.mpr hc] at hs
          exact Option.noConfusion hs
        simp [hs, hmem]
      | none =>
        have hns : stop ∉ cs := ih.mp hs
        simp only [hs]
        simp only [List.mem_cons, not_or]
        constructor
        · intro _
          exact ⟨fun he => h he.symm, hns⟩
        · intro _
          trivial

theorem firstSplit_unique {stop : Char} :
    ∀ (a a' b b' : List Char), stop ∉ a → stop ∉ a' →
      a ++ stop :: b = a' ++ stop :: b' → a = a' ∧ b = b' := by
  intro a
  induction a with
  | nil =>
    intro a' b b' _ ha' heq
    cases a' with
    | nil =>
      simp only [List.nil_append] at heq
      exact ⟨rfl, by injection heq⟩
    | cons d a'' =>
      simp only [List.nil_append, List.cons_append] at heq
      injection heq with h1 _
      exact absurd (h1 ▸ List.mem_cons_self d a'') ha'
  | cons c a'' ih =>
    intro a' b b' ha ha' heq
    cases a' with
    | nil =>
      simp only [List.cons_append, List.nil_append] at heq
      injection heq with h1 _
      exact absurd (h1 ▸ List.mem_cons_self c a'') ha
    | cons d a3 =>
      simp only [List.cons_append] at heq
      injection heq with h1 h2
      obtain ⟨he1, he2⟩ := ih a3 b b' (fun hm => ha (by simp [hm]))
        (fun hm => ha' (by simp [hm])) h2
      exact ⟨by rw [h1, he1], he2⟩

theorem splitAtChar_spec {stop : Char} (a b : List Char) (ha : stop ∉ a) :
    (splitAtChar stop (a ++ stop :: b)).map Subtype.val = some (a, b) := by
  cases hs : splitAtChar stop (a ++ stop :: b) with
  | none => exact absurd (splitAtChar_none.mp hs) (by simp)
  | some q =>
    obtain ⟨⟨a', b'⟩, h1, h2⟩ := q
    obtain ⟨rfl, rfl⟩ := firstSplit_unique a a' b b' ha h2 h1
    rfl

theorem takeWhile_append_stop {p : Char → Bool} (xs : List Char) (y : Char)
    (rest : List Char) (hxs : ∀ x ∈ xs, p x = true) (hy : p y = false) :
    (xs ++ y :: rest).takeWhile p = xs := by
  induction xs with
  | nil => simp [List.takeWhile_cons, hy]
  | cons c cs ih =>
    simp only [List.cons_append, List.takeWhile_cons, hxs c (by simp), if_true]
    rw [ih (fun x hx => hxs x (by simp [hx]))]

theorem dropWhile_append_stop {p : Char → Bool} (xs : List Char) (y : Char)
    (rest : List Char) (hxs : ∀ x ∈ xs, p x = true) (hy : p y = false) :
    (xs ++ y :: rest).dropWhile p = y :: rest := by
  induction xs with
  | nil => simp [List.dropWhile_cons, hy]
  | cons c cs ih =>
    simp only [List.cons_append, List.dropWhile_cons, hxs c (by simp), if_true]
    exact ih (fun x hx => hxs x (by simp [hx]))

theorem pyBasename_no_slash (l : List Char) : '/' ∉ pyBasename l := by
  unfold pyBasename
  intro hm
  rw [List.mem_reverse] at hm
  have := List.mem_takeWhile_imp hm
  simp at this

theorem pyBasename_subset (l : List Char) : ∀ c ∈ pyBasename l, c ∈ l := by
  intro c hc
  unfold pyBasename at hc
  rw [List.mem_reverse] at hc
  have hsub := (List.takeWhile_sublist (l := l.reverse) (fun c => !(c = '/'))).subset hc
  exact List.mem_reverse.mp hsub

theorem pyBasename_img (b : List Char) (hb : '/' ∉ b) :
    pyBasename ("img/".data ++ b) = b := by
  unfold pyBasename
  rw [List.reverse_append]
  have himg : ("img/".data).reverse = '/' :: ['g', 'm', 'i'] := by decide
  rw [himg, takeWhile_append_stop b.reverse '/' ['g', 'm', 'i'] ?_ (by decide)]
  · exact List.reverse_reverse b
  · intro x hx
    rw [List.mem_reverse] at hx
    have hne : ¬(x = '/') := fun he => hb (he ▸ hx)
    simp [hne]

/-! ### HTML scanner -/

theorem htmlTry_none_iff (l : List Char) :
    htmlTry l = none ↔ (¬ openerHtml.isPrefixOf l = true ∨ '"' ∉ l.drop 5) := by
  unfold htmlTry
  by_cases h : openerHtml.isPrefixOf l = true
  · rw [dif_pos h]
    cases hs : splitAtChar '"' (l.drop 5) with
    | some q =>
      obtain ⟨⟨grp, rem⟩, hq1, hq2⟩ := q
      constructor
      · intro hcontra
        exact absurd hcontra (by simp)
      · rintro (hc | hc)
        · exact absurd h hc
        · exfalso
          apply hc
          rw [hq1]
          simp
    | none =>
      constructor
      · intro _
        exact Or.inr (splitAtChar_none.mp hs)
      · intro _
        rfl
  · rw [dif_neg h]
    simp [h]

theorem htmlTry_some {l : List Char}
    {p : {p : List Char × List Char // p.2.length < l.length}}
    (h : htmlTry l = some p) :
    ∃ grp, l = openerHtml ++ grp ++ '"' :: p.1.2 ∧ '"' ∉ grp ∧
      p.1.1 = htmlRepl grp := by
  unfold htmlTry at h
  by_cases hpre : openerHtml.isPrefixOf l = true
  · rw [dif_pos hpre] at h
    have hl5 : openerHtml ++ l.drop 5 = l := by
      have := List.prefix_iff_eq_append.mp (List.isPrefixOf_iff_prefix.mp hpre)
      simpa [openerHtml] using this
    cases hs : splitAtChar '"' (l.drop 5) with
    | none =>
      rw [hs] at h
      exact Option.noConfusion h
    | some q =>
      obtain ⟨⟨grp, rem⟩, hq1, hq2⟩ := q
      rw [hs] at h
      have hval := congrArg Subtype.val (Option.some.inj h)
      have h1 : htmlRepl grp = p.1.1 := congrArg Prod.fst hval
      have h2 : rem = p.1.2 := congrArg Prod.snd hval
      refine ⟨grp, ?_, hq2, h1.symm⟩
      calc l = openerHtml ++ l.drop 5 := hl5.symm
        _ = openerHtml ++ (grp ++ '"' :: rem) := by
            rw [hq1]
        _ = openerHtml ++ grp ++ '"' :: p.1.2 := by
            rw [h2, List.append_assoc]
  · rw [dif_neg hpre] at h
    exact Option.noConfusion h

theorem htmlTry_build (grp rem : List Char) (hg : '"' ∉ grp) :
    (htmlTry (openerHtml ++ grp ++ '"' :: rem)).map Subtype.val =
      some (htmlRepl grp, rem) := by
  have hpre : openerHtml.isPrefixOf (openerHtml ++ grp ++ '"' :: rem) = true := by
    rw [List.isPrefixOf_iff_prefix, List.append_assoc]
    exact List.prefix_append _ _
  have hdrop : (openerHtml ++ grp ++ '"' :: rem).drop 5 = grp ++ '"' :: rem := by
    rw [List.append_assoc]
    have h5 : (5 : Nat) = openerHtml.length := by decide
    rw [h5, List.drop_left]
  unfold htmlTry
  rw [dif_pos hpre]
  cases hsc : splitAtChar '"' ((openerHtml ++ grp ++ '"' :: rem).drop 5) with
  | none =>
    exfalso
    rw [splitAtChar_none, hdrop] at hsc
    exact hsc (by simp)
  | some q =>
    obtain ⟨⟨g1, r1⟩, hc1, hc2⟩ := q
    have hline : grp ++ '"' :: rem = g1 ++ '"' :: r1 := by
      rw [← hdrop]
      exact hc1
    obtain ⟨he1, he2⟩ := firstSplit_unique grp g1 rem r1 hg hc2 hline
    subst he1
    subst he2
    rfl

theorem htmlRepl_take5 (grp : List Char) :
    5 ≤ (htmlRepl grp).length ∧ (htmlRepl grp).take 5 = openerHtml := by
  unfold htmlRepl
  by_cases hge : grp = []
  · simp [hge, openerHtml]
  · constructor
    · simp [hge, openerHtml]
    · rw [if_neg hge]
      have h5 : (5 : Nat) = openerHtml.length := by decide
      rw [List.append_assoc, h5, List.take_left]

theorem htmlTry_take5 (l : List Char)
    (p : {p : List Char × List Char // p.2.length < l.length})
    (h : htmlTry l = some p) : 5 ≤ p.1.1.length ∧ p.1.1.take 5 = l.take 5 := by
  obtain ⟨grp, hl, _hg, hr⟩ := htmlTry_some h
  obtain ⟨hlen, htake⟩ := htmlRepl_take5 grp
  have hlt : l.take 5 = openerHtml := by
    have := congrArg (List.take 5) hl
    rw [this, List.append_assoc]
    have h5 : (5 : Nat) = openerHtml.length := by decide
    rw [h5, List.take_left]
  rw [hr, hlt]
  exact ⟨hlen, htake⟩

theorem htmlStab (l : List Char) (h : htmlTry l = none) :
    htmlTry (scanRewrite htmlTry l) = none := by
  rcases (htmlTry_none_iff l).mp h with hc | hc
  · rw [htmlTry_none_iff]
    left
    intro hcontra
    apply hc
    rw [List.isPrefixOf_iff_prefix, List.prefix_iff_eq_take] at hcontra ⊢
    have h5 : openerHtml.length = 5 := by decide
    rw [h5] at hcontra ⊢
    rw [← scanRewrite_take htmlTry 5 htmlTry_take5 l 5 (Nat.le_refl _)]
    exact hcontra
  · have hid : scanRewrite htmlTry l = l := by
      apply scanRewrite_id
      intro n
      rw [htmlTry_none_iff]
      right
      intro hmem
      apply hc
      rw [List.drop_drop] at hmem
      have : n + 5 = 5 + n := by omega
      rw [this] at hmem
      rw [← List.drop_drop] at hmem
      exact List.drop_subset _ _ hmem
    rw [hid]
    exact h

theorem htmlReplay (l : List Char)
    (p : {p : List Char × List Char // p.2.length < l.length})
    (h : htmlTry l = some p) :
    (htmlTry (p.1.1 ++ scanRewrite htmlTry p.1.2)).map Subtype.val =
      some (p.1.1, scanRewrite htmlTry p.1.2) := by
  obtain ⟨grp, _hl, hg, hr⟩ := htmlTry_some h
  by_cases hge : grp = []
  · subst hge
    have hrepl : p.1.1 = openerHtml ++ [] ++ ['"'] := by
      rw [hr]
      rfl
    have harg : p.1.1 ++ scanRewrite htmlTry p.1.2 =
        openerHtml ++ [] ++ '"' :: scanRewrite htmlTry p.1.2 := by
      rw [hrepl]
      simp
    rw [harg, htmlTry_build [] (scanRewrite htmlTry p.1.2) (by simp), hr]
  · have hg2 : '"' ∉ "img/".data ++ pyBasename grp := by
      intro hm
      rcases List.mem_append.mp hm with hm | hm
      · simp at hm
      · exact hg (pyBasename_subset grp _ hm)
    have hrepl : p.1.1 = openerHtml ++ ("img/".data ++ pyBasename grp) ++ ['"'] := by
      rw [hr]
      unfold htmlRepl
      rw [if_neg hge]
    have harg : p.1.1 ++ scanRewrite htmlTry p.1.2 =
        openerHtml ++ ("img/".data ++ pyBasename grp) ++
          '"' :: scanRewrite htmlTry p.1.2 := by
      rw [hrepl]
      simp
    rw [harg, htmlTry_build ("img/".data ++ pyBasename grp)
      (scanRewrite htmlTry p.1.2) hg2]
    have hsame : htmlRepl ("img/".data ++ pyBasename grp) = htmlRepl grp := by
      unfold htmlRepl
      rw [if_neg (by simp : ¬("img/".data ++ pyBasename grp = [])), if_neg hge,
        pyBasename_img (pyBasename grp) (pyBasename_no_slash grp)]
    rw [hsame, hr]

theorem htmlPass_idem (l : List Char) :
    scanRewrite htmlTry (scanRewrite htmlTry l) = scanRewrite htmlTry l :=
  scanRewrite_idem htmlTry htmlStab htmlReplay l

/-! ### Markdown scanner -/

theorem mdTry_some {l : List Char}
    {p : {p : List Char × List Char // p.2.length < l.length}}
    (h : mdTry l = some p) :
    ∃ alt path, l = '!' :: '[' :: alt ++ ']' :: '(' :: path ++ ')' :: p.1.2 ∧
      ']' ∉ alt ∧ ')' ∉ path ∧ path ≠ [] ∧ p.1.1 = mdRepl alt path := by
  unfold mdTry at h
  split at h
  · split at h
    · split at h
      · split at h
        · split at h
          · exact Option.noConfusion h
          · rename_i x1 alt r3 hp1a hp1b heq1 x2 path rem hp2 heq2 hpne
            have hval := congrArg Subtype.val (Option.some.inj h)
            have h1 : p.1.1 = mdRepl alt path := by rw [← hval]
            have h2 : p.1.2 = rem := by rw [← hval]
            have he1 := hp1a.1
            have hna := hp1a.2
            have he2 := hp2.1
            have hnp := hp2.2
            dsimp only at he1 hna he2 hnp
            refine ⟨alt, path, ?_, hna, hnp, hpne, h1⟩
            rename_i l0 r1
            calc '!' :: '[' :: r1
                = '!' :: '[' :: (alt ++ ']' :: '(' :: r3) := by rw [he1]
              _ = '!' :: '[' :: (alt ++ ']' :: '(' :: (path ++ ')' :: rem)) := by
                  rw [← he2]
              _ = '!' :: '[' :: alt ++ ']' :: '(' :: path ++ ')' :: rem := by simp
              _ = '!' :: '[' :: alt ++ ']' :: '(' :: path ++ ')' :: p.1.2 := by
                  rw [h2]
        · exact Option.noConfusion h
      · exact Option.noConfusion h
    · exact Option.noConfusion h
  · exact Option.noConfusion h

theorem mdTry_eq_none_of {X : List Char}
    (hcon : ∀ q, mdTry X = some q → False) : mdTry X = none := by
  cases h : mdTry X with
  | none => rfl
  | some q => exact absurd h (fun hq => hcon q hq)

theorem mdTry_ne_bang {c : Char} {t : List Char} (hc : c ≠ '!') :
    mdTry (c :: t) = none := by
  apply mdTry_eq_none_of
  intro q hq
  obtain ⟨alt, path, heq, -, -, -, -⟩ := mdTry_some hq
  injection heq with h1 _
  exact hc h1

theorem mdTry_ne_bracket {c1 c2 : Char} {t : List Char} (hc : c2 ≠ '[') :
    mdTry (c1 :: c2 :: t) = none := by
  apply mdTry_eq_none_of
  intro q hq
  obtain ⟨alt, path, heq, -, -, -, -⟩ := mdTry_some hq
  injection heq with _ heq2
  injection heq2 with h2 _
  exact hc h2

theorem mdTry_midAlt (b u : List Char) (hb : ']' ∉ b)
    (hu : u.head? ≠ some '(') : mdTry (b ++ ']' :: u) = none := by
  apply mdTry_eq_none_of
  intro q hq
  obtain ⟨alt, path, heq, hna, -, -, -⟩ := mdTry_some hq
  have heq2 : b ++ ']' :: u =
      ('!' :: '[' :: alt) ++ ']' :: ('(' :: (path ++ ')' :: q.1.2)) :=
    heq.trans (by simp)
  obtain ⟨-, he2⟩ := firstSplit_unique b ('!' :: '[' :: alt) u
    ('(' :: (path ++ ')' :: q.1.2)) hb (by simp [hna]) heq2
  rw [he2] at hu
  exact hu rfl

theorem mdTry_noClose (b r3 : List Char) (hb : ']' ∉ b) (hr : ')' ∉ r3) :
    mdTry (b ++ ']' :: '(' :: r3) = none := by
  apply mdTry_eq_none_of
  intro q hq
  obtain ⟨alt, path, heq, hna, -, -, -⟩ := mdTry_some hq
  have heq2 : b ++ ']' :: '(' :: r3 =
      ('!' :: '[' :: alt) ++ ']' :: ('(' :: (path ++ ')' :: q.1.2)) :=
    heq.trans (by simp)
  obtain ⟨-, he2⟩ := firstSplit_unique b ('!' :: '[' :: alt) ('(' :: r3)
    ('(' :: (path ++ ')' :: q.1.2)) hb (by simp [hna]) heq2
  injection he2 with _ he3
  apply hr
  rw [he3]
  simp

theorem mdTry_emptyPath (b rem : List Char) (hb : ']' ∉ b) :
    mdTry (b ++ ']' :: '(' :: ')' :: rem) = none := by
  apply mdTry_eq_none_of
  intro q hq
  obtain ⟨alt, path, heq, hna, hnp, hpne, -⟩ := mdTry_some hq
  have heq2 : b ++ ']' :: '(' :: ')' :: rem =
      ('!' :: '[' :: alt) ++ ']' :: ('(' :: (path ++ ')' :: q.1.2)) :=
    heq.trans (by simp)
  obtain ⟨-, he2⟩ := firstSplit_unique b ('!' :: '[' :: alt) ('(' :: ')' :: rem)
    ('(' :: (path ++ ')' :: q.1.2)) hb (by simp [hna]) heq2
  injection he2 with _ he3
  have he4 : ([] : List Char) ++ ')' :: rem = path ++ ')' :: q.1.2 := by
    simpa using he3
  obtain ⟨he5, -⟩ := firstSplit_unique [] path rem q.1.2 (by simp) hnp he4
  exact hpne he5.symm

theorem mdTry_mem_bracket {t : List Char} {q} (hq : mdTry t = some q) :
    ']' ∈ t := by
  obtain ⟨alt, path, heq, -, -, -, -⟩ := mdTry_some hq
  rw [heq]
  simp

theorem mdTry_mem_paren {t : List Char} {q} (hq : mdTry t = some q) :
    ')' ∈ t := by
  obtain ⟨alt, path, heq, -, -, -, -⟩ := mdTry_some hq
  rw [heq]
  simp

theorem mdTry_build (alt path rem : List Char) (hna : ']' ∉ alt)
    (hnp : ')' ∉ path) (hpne : path ≠ []) :
    (mdTry ('!' :: '[' :: (alt ++ ']' :: '(' :: (path ++ ')' :: rem)))).map
        Subtype.val =
      some (mdRepl alt path, rem) := by
  simp only [mdTry]
  cases hsc : splitAtChar ']' (alt ++ ']' :: '(' :: (path ++ ')' :: rem)) with
  | none =>
    exfalso
    rw [splitAtChar_none] at hsc
    exact hsc (by simp)
  | some q =>
    obtain ⟨⟨g, r2⟩, hc1, hc2⟩ := q
    have hu : alt ++ ']' :: ('(' :: (path ++ ')' :: rem)) = g ++ ']' :: r2 := hc1
    obtain ⟨he1, he2⟩ := firstSplit_unique alt g ('(' :: (path ++ ')' :: rem)) r2
      hna hc2 hu
    subst he1
    subst he2
    cases hsc2 : splitAtChar ')' (path ++ ')' :: rem) with
    | none =>
      exfalso
      rw [splitAtChar_none] at hsc2
      exact hsc2 (by simp)
    | some q2 =>
      obtain ⟨⟨pg, rg⟩, hd1, hd2⟩ := q2
      obtain ⟨hf1, hf2⟩ := firstSplit_unique path pg rem rg hnp hd2 hd1
      subst hf1
      subst hf2
      simp only [hsc2]
      rw [if_neg hpne]
      rfl

theorem mdTry_take2 (l : List Char)
    (p : {p : List Char × List Char // p.2.length < l.length})
    (h : mdTry l = some p) : 2 ≤ p.1.1.length ∧ p.1.1.take 2 = l.take 2 := by
  obtain ⟨alt, path, heq, -, -, -, hr⟩ := mdTry_some h
  have hl2 : l.take 2 = ['!', '['] := by
    rw [congrArg (List.take 2) heq]
    rfl
  constructor
  · rw [hr]
    unfold mdRepl
    simp
  · rw [hr, hl2]
    rfl

theorem mdTry_head (l : List Char)
    (p : {p : List Char × List Char // p.2.length < l.length})
    (h : mdTry l = some p) : p.1.1.head? = l.head? := by
  obtain ⟨alt, path, heq, -, -, -, hr⟩ := mdTry_some h
  rw [hr, congrArg List.head? heq]
  rfl

theorem mdTry_none_cases {l : List Char} (h : mdTry l = none) :
    l.take 2 ≠ ['!', '['] ∨
    (∃ r1, l = '!' :: '[' :: r1 ∧ ']' ∉ r1) ∨
    (∃ alt u, l = ('!' :: '[' :: alt) ++ ']' :: u ∧ ']' ∉ alt ∧
      u.head? ≠ some '(') ∨
    (∃ alt r3, l = ('!' :: '[' :: alt) ++ ']' :: '(' :: r3 ∧ ']' ∉ alt ∧
      ')' ∉ r3) ∨
    (∃ alt rem, l = ('!' :: '[' :: alt) ++ ']' :: '(' :: ')' :: rem ∧
      ']' ∉ alt) := by
  cases l with
  | nil => left; simp
  | cons c1 t1 =>
    cases t1 with
    | nil =>
      left
      intro hcontra
      simp [List.take] at hcontra
    | cons c2 t2 =>
      by_cases hc1 : c1 = '!'
      · by_cases hc2 : c2 = '['
        · subst hc1
          subst hc2
          cases hs : splitAtChar ']' t2 with
          | none =>
            right; left
            exact ⟨t2, rfl, splitAtChar_none.mp hs⟩
          | some q =>
            obtain ⟨⟨alt, u⟩, hs1, hs2⟩ := q
            have ht2 : t2 = alt ++ ']' :: u := hs1
            cases u with
            | nil =>
              right; right; left
              exact ⟨alt, [], by rw [ht2]; rfl, hs2, by simp⟩
            | cons d r3 =>
              by_cases hd : d = '('
              · subst hd
                cases hs3 : splitAtChar ')' r3 with
                | none =>
                  right; right; right; left
                  exact ⟨alt, r3, by rw [ht2]; rfl, hs2, splitAtChar_none.mp hs3⟩
                | some q2 =>
                  obtain ⟨⟨path, rem⟩, hd1, hd2⟩ := q2
                  have hr3 : r3 = path ++ ')' :: rem := hd1
                  by_cases hp : path = []
                  · subst hp
                    right; right; right; right
                    refine ⟨alt, rem, ?_, hs2⟩
                    rw [ht2, hr3]
                    rfl
                  · exfalso
                    have hb := mdTry_build alt path rem hs2 hd2 hp
                    have hl : '!' :: '[' ::
                        (alt ++ ']' :: '(' :: (path ++ ')' :: rem)) =
                        '!' :: '[' :: t2 := by
                      rw [ht2, hr3]
                    rw [hl, h] at hb
                    simp at hb
              · right; right; left
                exact ⟨alt, d :: r3, by rw [ht2]; rfl, hs2, by simp [hd]⟩
        · left
          intro hcontra
          simp [List.take] at hcontra
          exact hc2 hcontra.2
      · left
        intro hcontra
        simp [List.take] at hcontra
        exact hc1 hcontra.1

theorem mdScanPass_mid (u : List Char) (hu : u.head? ≠ some '(') :
    ∀ b, ']' ∉ b →
      scanRewrite mdTry (b ++ ']' :: u) = b ++ ']' :: scanRewrite mdTry u := by
  intro b
  induction b with
  | nil =>
    intro _
    simp only [List.nil_append]
    rw [scanRewrite_none mdTry (mdTry_ne_bang (by decide))]
  | cons c b' ih =>
    intro hb
    have hnone : mdTry (c :: (b' ++ ']' :: u)) = none :=
      mdTry_midAlt (c :: b') u hb hu
    rw [List.cons_append, scanRewrite_none mdTry hnone,
      ih (fun hm => hb (by simp [hm]))]
    rfl

theorem mdScanId_noClose (r3 : List Char) (hr : ')' ∉ r3) :
    ∀ b, ']' ∉ b →
      scanRewrite mdTry (b ++ ']' :: '(' :: r3) = b ++ ']' :: '(' :: r3 := by
  intro b
  induction b with
  | nil =>
    intro _
    simp only [List.nil_append]
    rw [scanRewrite_none mdTry (mdTry_ne_bang (by decide)),
      scanRewrite_none mdTry (mdTry_ne_bang (by decide)),
      scanRewrite_id mdTry r3 ?_]
    intro n
    apply mdTry_eq_none_of
    intro q hq
    exact hr (List.drop_subset n r3 (mdTry_mem_paren hq))
  | cons c b' ih =>
    intro hb
    have hnone : mdTry (c :: (b' ++ ']' :: '(' :: r3)) = none :=
      mdTry_noClose (c :: b') r3 hb hr
    rw [List.cons_append, scanRewrite_none mdTry hnone,
      ih (fun hm => hb (by simp [hm]))]

theorem mdScanPass_empty (rem : List Char) :
    ∀ b, ']' ∉ b →
      scanRewrite mdTry (b ++ ']' :: '(' :: ')' :: rem) =
        b ++ ']' :: '(' :: ')' :: scanRewrite mdTry rem := by
  intro b
  induction b with
  | nil =>
    intro _
    simp only [List.nil_append]
    rw [scanRewrite_none mdTry (mdTry_ne_bang (by decide)),
      scanRewrite_none mdTry (mdTry_ne_bang (by decide)),
      scanRewrite_none mdTry (mdTry_ne_bang (by decide))]
  | cons c b' ih =>
    intro hb
    have hnone : mdTry (c :: (b' ++ ']' :: '(' :: ')' :: rem)) = none :=
      mdTry_emptyPath (c :: b') rem hb
    rw [List.cons_append, scanRewrite_none mdTry hnone,
      ih (fun hm => hb (by simp [hm]))]
    rfl

theorem mdStab (l : List Char) (h : mdTry l = none) :
    mdTry (scanRewrite mdTry l) = none := by
  rcases mdTry_none_cases h with hA | ⟨r1, heq, hB⟩ | ⟨alt, u, heq, hna, hu⟩ |
    ⟨alt, r3, heq, hna, hr⟩ | ⟨alt, rem, heq, hna⟩
  · apply mdTry_eq_none_of
    intro q hq
    obtain ⟨alt, path, heq, -, -, -, -⟩ := mdTry_some hq
    apply hA
    have ht := congrArg (List.take 2) heq
    rw [scanRewrite_take mdTry 2 mdTry_take2 l 2 (Nat.le_refl 2)] at ht
    rw [ht]
    rfl
  · subst heq
    have hid : scanRewrite mdTry ('!' :: '[' :: r1) = '!' :: '[' :: r1 := by
      rw [scanRewrite_none mdTry h,
        scanRewrite_none mdTry (mdTry_ne_bang (by decide)),
        scanRewrite_id mdTry r1 ?_]
      intro n
      apply mdTry_eq_none_of
      intro q hq
      exact hB (List.drop_subset n r1 (mdTry_mem_bracket hq))
    rw [hid]
    exact h
  · subst heq
    rw [mdScanPass_mid u hu ('!' :: '[' :: alt) (by simp [hna])]
    apply mdTry_midAlt ('!' :: '[' :: alt) (scanRewrite mdTry u) (by simp [hna])
    rw [scanRewrite_head mdTry mdTry_head u]
    exact hu
  · subst heq
    rw [mdScanId_noClose r3 hr ('!' :: '[' :: alt) (by simp [hna])]
    exact h
  · subst heq
    rw [mdScanPass_empty rem ('!' :: '[' :: alt) (by simp [hna])]
    exact mdTry_emptyPath ('!' :: '[' :: alt) (scanRewrite mdTry rem)
      (by simp [hna])

theorem mdReplay (l : List Char)
    (p : {p : List Char × List Char // p.2.length < l.length})
    (h : mdTry l = some p) :
    (mdTry (p.1.1 ++ scanRewrite mdTry p.1.2)).map Subtype.val =
      some (p.1.1, scanRewrite mdTry p.1.2) := by
  obtain ⟨alt, path, _heq, hna, hnp, _hpne, hr⟩ := mdTry_some h
  have hnp2 : ')' ∉ "img/".data ++ pyBasename path := by
    intro hm
    rcases List.mem_append.mp hm with hm | hm
    · simp at hm
    · exact hnp (pyBasename_subset path _ hm)
  have hpne2 : "img/".data ++ pyBasename path ≠ [] := by simp
  have harg : p.1.1 ++ scanRewrite mdTry p.1.2 =
      '!' :: '[' :: (alt ++ ']' :: '(' ::
        (("img/".data ++ pyBasename path) ++ ')' :: scanRewrite mdTry p.1.2)) := by
    rw [hr]
    unfold mdRepl
    simp
  rw [harg, mdTry_build alt ("img/".data ++ pyBasename path)
    (scanRewrite mdTry p.1.2) hna hnp2 hpne2]
  have hsame : mdRepl alt ("img/".data ++ pyBasename path) = mdRepl alt path := by
    unfold mdRepl
    rw [pyBasename_img (pyBasename path) (pyBasename_no_slash path)]
  rw [hsame, hr]

theorem mdPass_idem (l : List Char) :
    scanRewrite mdTry (scanRewrite mdTry l) = scanRewrite mdTry l :=
  scanRewrite_idem mdTry mdStab mdReplay l

/-! ### reStructuredText scanner -/

theorem dropWhile_head {p : Char → Bool} :
    ∀ (l : List Char) (c : Char), (l.dropWhile p).head? = some c → p c = false := by
  intro l
  induction l with
  | nil => intro c hc; simp at hc
  | cons d l' ih =>
    intro c hc
    by_cases hd : p d = true
    · rw [List.dropWhile_cons, if_pos hd] at hc
      exact ih c hc
    · rw [List.dropWhile_cons, if_neg hd] at hc
      simp only [List.head?_cons, Option.some.injEq] at hc
      subst hc
      simpa using hd

theorem takeWhile_eq_self_of {p : Char → Bool} (g : List Char)
    (h : ∀ x ∈ g, p x = true) : g.takeWhile p = g := by
  induction g with
  | nil => rfl
  | cons c g' ih =>
    rw [List.takeWhile_cons, if_pos (h c (by simp)), ih (fun x hx => h x (by simp [hx]))]

theorem rstTry_some {l : List Char}
    {p : {p : List Char × List Char // p.2.length < l.length}}
    (h : rstTry l = some p) :
    ∃ grp, l = openerRst ++ (grp ++ p.1.2) ∧ '\n' ∉ grp ∧ grp ≠ [] ∧
      (p.1.2.head? = none ∨ p.1.2.head? = some '\n') ∧ p.1.1 = rstRepl grp := by
  unfold rstTry at h
  by_cases hpre : openerRst.isPrefixOf l = true
  · rw [dif_pos hpre] at h
    by_cases hg : (l.drop 11).takeWhile (fun c => !(c = '\n')) = []
    · rw [dif_pos hg] at h
      exact Option.noConfusion h
    · rw [dif_neg hg] at h
      have hval := congrArg Subtype.val (Option.some.inj h)
      have h1 : p.1.1 = rstRepl ((l.drop 11).takeWhile (fun c => !(c = '\n'))) := by
        rw [← hval]
      have h2 : p.1.2 = (l.drop 11).dropWhile (fun c => !(c = '\n')) := by
        rw [← hval]
      refine ⟨(l.drop 11).takeWhile (fun c => !(c = '\n')), ?_, ?_, hg, ?_, h1⟩
      · have hl11 : openerRst ++ l.drop 11 = l := by
          have := List.prefix_iff_eq_append.mp (List.isPrefixOf_iff_prefix.mp hpre)
          simpa [openerRst] using this
        calc l = openerRst ++ l.drop 11 := hl11.symm
          _ = openerRst ++ ((l.drop 11).takeWhile (fun c => !(c = '\n')) ++
              (l.drop 11).dropWhile (fun c => !(c = '\n'))) := by
              rw [List.takeWhile_append_dropWhile]
          _ = openerRst ++ ((l.drop 11).takeWhile (fun c => !(c = '\n')) ++ p.1.2) := by
              rw [h2]
      · intro hm
        have := List.mem_takeWhile_imp hm
        simp at this
      · rw [h2]
        cases hh : ((l.drop 11).dropWhile (fun c => !(c = '\n'))).head? with
        | none => exact Or.inl rfl
        | some c =>
          right
          have := dropWhile_head (l.drop 11) c hh
          simp only [Bool.not_eq_true', decide_eq_false_iff_not, Decidable.not_not] at this
          simp only [Bool.not_eq_false'] at this
          exact congrArg some (by simpa using this)
  · rw [dif_neg hpre] at h
    exact Option.noConfusion h

theorem rstTry_eq_none_of {X : List Char}
    (hcon : ∀ q, rstTry X = some q → False) : rstTry X = none := by
  cases h : rstTry X with
  | none => rfl
  | some q => exact absurd h (fun hq => hcon q hq)

theorem rstTry_ne_head {c : Char} {t : List Char} (hc : c ≠ '.') :
    rstTry (c :: t) = none := by
  apply rstTry_eq_none_of
  intro q hq
  obtain ⟨grp, heq, -, -, -, -⟩ := rstTry_some hq
  injection heq with h1 _
  exact hc h1

theorem rstTry_ne_second {c1 c2 : Char} {t : List Char} (hc : c2 ≠ '.') :
    rstTry (c1 :: c2 :: t) = none := by
  apply rstTry_eq_none_of
  intro q hq
  obtain ⟨grp, heq, -, -, -, -⟩ := rstTry_some hq
  injection heq with _ heq2
  injection heq2 with h2 _
  exact hc h2

theorem rstTry_nilLine (u : List Char)
    (hu : u.head? = none ∨ u.head? = some '\n') :
    rstTry (openerRst ++ u) = none := by
  apply rstTry_eq_none_of
  intro q hq
  obtain ⟨grp, heq, hnl, hne, -, -⟩ := rstTry_some hq
  have hu2 : u = grp ++ q.1.2 := List.append_cancel_left heq
  cases grp with
  | nil => exact hne rfl
  | cons g0 g' =>
    have hh : u.head? = some g0 := by rw [hu2]; rfl
    rcases hu with hu | hu
    · rw [hu] at hh
      exact Option.noConfusion hh
    · rw [hu] at hh
      have : '\n' = g0 := Option.some.inj hh
      exact hnl (by rw [this]; simp)

theorem rstTry_build (g Y : List Char) (hg : '\n' ∉ g) (hgne : g ≠ [])
    (hY : Y.head? = none ∨ Y.head? = some '\n') :
    (rstTry (openerRst ++ (g ++ Y))).map Subtype.val = some (rstRepl g, Y) := by
  have hpre : openerRst.isPrefixOf (openerRst ++ (g ++ Y)) = true := by
    rw [List.isPrefixOf_iff_prefix]
    exact List.prefix_append _ _
  have hdrop : (openerRst ++ (g ++ Y)).drop 11 = g ++ Y := by
    have h11 : (11 : Nat) = openerRst.length := by decide
    rw [h11, List.drop_left]
  have hgall : ∀ x ∈ g, (!(x = '\n')) = true := by
    intro x hx
    have : ¬(x = '\n') := fun he => hg (he ▸ hx)
    simp [this]
  have htake : (g ++ Y).takeWhile (fun c => !(c = '\n')) = g := by
    cases hY2 : Y with
    | nil =>
      rw [List.append_nil]
      exact takeWhile_eq_self_of g hgall
    | cons y Y' =>
      have hy : y = '\n' := by
        rcases hY with hY | hY
        · rw [hY2] at hY
          exact Option.noConfusion hY
        · rw [hY2] at hY
          exact Option.some.inj hY
      subst hy
      exact takeWhile_append_stop g '\n' Y' hgall (by simp)
  have hdw : (g ++ Y).dropWhile (fun c => !(c = '\n')) = Y := by
    cases hY2 : Y with
    | nil =>
      rw [List.append_nil]
      rw [List.dropWhile_eq_nil_iff]
      intro x hx
      exact hgall x hx
    | cons y Y' =>
      have hy : y = '\n' := by
        rcases hY with hY | hY
        · rw [hY2] at hY
          exact Option.noConfusion hY
        · rw [hY2] at hY
          exact Option.some.inj hY
      subst hy
      exact dropWhile_append_stop g '\n' Y' hgall (by simp)
  unfold rstTry
  rw [dif_pos hpre]
  have hcond : ¬(((openerRst ++ (g ++ Y)).drop 11).takeWhile
      (fun c => !(c = '\n')) = []) := by
    rw [hdrop, htake]
    exact hgne
  rw [dif_neg hcond]
  rw [Option.map_some']
  congr 1
  show (rstRepl (((openerRst ++ (g ++ Y)).drop 11).takeWhile (fun c => !(c = '\n'))),
      ((openerRst ++ (g ++ Y)).drop 11).dropWhile (fun c => !(c = '\n'))) = (rstRepl g, Y)
  rw [hdrop, htake, hdw]

theorem rstRepl_take11 (g : List Char) :
    11 ≤ (rstRepl g).length ∧ (rstRepl g).take 11 = openerRst := by
  unfold rstRepl
  constructor
  · simp [openerRst]
  · have h11 : (11 : Nat) = openerRst.length := by decide
    rw [h11, List.take_left]

theorem rstTry_take11 (l : List Char)
    (p : {p : List Char × List Char // p.2.length < l.length})
    (h : rstTry l = some p) : 11 ≤ p.1.1.length ∧ p.1.1.take 11 = l.take 11 := by
  obtain ⟨grp, heq, -, -, -, hr⟩ := rstTry_some h
  obtain ⟨hlen, htake⟩ := rstRepl_take11 grp
  have hlt : l.take 11 = openerRst := by
    rw [congrArg (List.take 11) heq]
    have h11 : (11 : Nat) = openerRst.length := by decide
    rw [h11, List.take_left]
  rw [hr, hlt]
  exact ⟨hlen, htake⟩

theorem rstTry_head (l : List Char)
    (p : {p : List Char × List Char // p.2.length < l.length})
    (h : rstTry l = some p) : p.1.1.head? = l.head? := by
  obtain ⟨grp, heq, -, -, -, hr⟩ := rstTry_some h
  rw [hr, congrArg List.head? heq]
  rfl

theorem rstTry_none_cases {l : List Char} (h : rstTry l = none) :
    ¬ openerRst.isPrefixOf l = true ∨
    (∃ u, l = openerRst ++ u ∧ (u.head? = none ∨ u.head? = some '\n')) := by
  by_cases hpre : openerRst.isPrefixOf l = true
  · right
    refine ⟨l.drop 11, ?_, ?_⟩
    · have := List.prefix_iff_eq_append.mp (List.isPrefixOf_iff_prefix.mp hpre)
      have h11 : openerRst.length = 11 := by decide
      rw [h11] at this
      exact this.symm
    · unfold rstTry at h
      rw [dif_pos hpre] at h
      by_cases hg : (l.drop 11).takeWhile (fun c => !(c = '\n')) = []
      · cases hu : l.drop 11 with
        | nil => exact Or.inl rfl
        | cons c u' =>
          rw [hu, List.takeWhile_cons] at hg
          by_cases hc : (!(c = '\n')) = true
          · rw [if_pos hc] at hg
            exact absurd hg (by simp)
          · right
            have hcn : c = '\n' := by
              by_contra hne
              exact hc (by simp [hne])
            rw [List.head?_cons]
            exact congrArg some hcn
      · rw [dif_neg hg] at h
        exact Option.noConfusion h
  · exact Or.inl hpre

theorem rstScanPass (u : List Char)
    (hu : u.head? = none ∨ u.head? = some '\n') :
    scanRewrite rstTry (openerRst ++ u) = openerRst ++ scanRewrite rstTry u := by
  have h0 : rstTry ('.' :: ('.' :: ' ' :: 'i' :: 'm' :: 'a' :: 'g' :: 'e' ::
      ':' :: ':' :: ' ' :: u)) = none := rstTry_nilLine u hu
  show scanRewrite rstTry ('.' :: ('.' :: ' ' :: 'i' :: 'm' :: 'a' :: 'g' ::
      'e' :: ':' :: ':' :: ' ' :: u)) = _
  rw [scanRewrite_none rstTry h0,
    scanRewrite_none rstTry (rstTry_ne_second (by decide)),
    scanRewrite_none rstTry (rstTry_ne_head (by decide)),
    scanRewrite_none rstTry (rstTry_ne_head (by decide)),
    scanRewrite_none rstTry (rstTry_ne_head (by decide)),
    scanRewrite_none rstTry (rstTry_ne_head (by decide)),
    scanRewrite_none rstTry (rstTry_ne_head (by decide)),
    scanRewrite_none rstTry (rstTry_ne_head (by decide)),
    scanRewrite_none rstTry (rstTry_ne_head (by decide)),
    scanRewrite_none rstTry (rstTry_ne_head (by decide)),
    scanRewrite_none rstTry (rstTry_ne_head (by decide))]
  rfl

theorem rstStab (l : List Char) (h : rstTry l = none) :
    rstTry (scanRewrite rstTry l) = none := by
  rcases rstTry_none_cases h with hA | ⟨u, heq, hu⟩
  · apply rstTry_eq_none_of
    intro q hq
    obtain ⟨grp, heq, -, -, -, -⟩ := rstTry_some hq
    apply hA
    rw [List.isPrefixOf_iff_prefix, List.prefix_iff_eq_take]
    have h11 : openerRst.length = 11 := by decide
    rw [h11]
    rw [← scanRewrite_take rstTry 11 rstTry_take11 l 11 (Nat.le_refl _)]
    rw [congrArg (List.take 11) heq]
    have h11b : (11 : Nat) = openerRst.length := by decide
    rw [h11b, List.take_left]
  · subst heq
    rw [rstScanPass u hu]
    apply rstTry_nilLine
    rw [scanRewrite_head rstTry rstTry_head u]
    exact hu

theorem rstReplay (l : List Char)
    (p : {p : List Char × List Char // p.2.length < l.length})
    (h : rstTry l = some p) :
    (rstTry (p.1.1 ++ scanRewrite rstTry p.1.2)).map Subtype.val =
      some (p.1.1, scanRewrite rstTry p.1.2) := by
  obtain ⟨grp, _heq, hnl, _hne, hhead, hr⟩ := rstTry_some h
  have hg2 : '\n' ∉ "img/".data ++ pyBasename grp := by
    intro hm
    rcases List.mem_append.mp hm with hm | hm
    · simp at hm
    · exact hnl (pyBasename_subset grp _ hm)
  have hY : (scanRewrite rstTry p.1.2).head? = none ∨
      (scanRewrite rstTry p.1.2).head? = some '\n' := by
    rw [scanRewrite_head rstTry rstTry_head p.1.2]
    exact hhead
  have harg : p.1.1 ++ scanRewrite rstTry p.1.2 =
      openerRst ++ (("img/".data ++ pyBasename grp) ++ scanRewrite rstTry p.1.2) := by
    rw [hr]
    unfold rstRepl
    simp
  rw [harg, rstTry_build ("img/".data ++ pyBasename grp)
    (scanRewrite rstTry p.1.2) hg2 (by simp) hY]
  have hsame : rstRepl ("img/".data ++ pyBasename grp) = rstRepl grp := by
    unfold rstRepl
    rw [pyBasename_img (pyBasename grp) (pyBasename_no_slash grp)]
  rw [hsame, hr]

theorem rstPass_idem (l : List Char) :
    scanRewrite rstTry (scanRewrite rstTry l) = scanRewrite rstTry l :=
  scanRewrite_idem rstTry rstStab rstReplay l

/-! ### AsciiDoc scanner -/

theorem adocTry_some {l : List Char}
    {p : {p : List Char × List Char // p.2.length < l.length}}
    (h : adocTry l = some p) :
    ∃ target attrs, l = openerAdoc ++ (target ++ '[' :: (attrs ++ ']' :: p.1.2)) ∧
      '[' ∉ target ∧ target ≠ [] ∧ ']' ∉ attrs ∧ p.1.1 = adocRepl target attrs := by
  unfold adocTry at h
  by_cases hpre : openerAdoc.isPrefixOf l = true
  · rw [dif_pos hpre] at h
    have hl7 : openerAdoc ++ l.drop 7 = l := by
      have := List.prefix_iff_eq_append.mp (List.isPrefixOf_iff_prefix.mp hpre)
      simpa [openerAdoc] using this
    cases hs : splitAtChar '[' (l.drop 7) with
    | none =>
      rw [hs] at h
      exact Option.noConfusion h
    | some q =>
      obtain ⟨⟨target, r2⟩, hq1, hq2⟩ := q
      rw [hs] at h
      dsimp only at h
      by_cases ht : target = []
      · rw [if_pos ht] at h
        exact Option.noConfusion h
      · rw [if_neg ht] at h
        cases hs2 : splitAtChar ']' r2 with
        | none =>
          rw [hs2] at h
          exact Option.noConfusion h
        | some q2 =>
          obtain ⟨⟨attrs, rem⟩, hd1, hd2⟩ := q2
          rw [hs2] at h
          have hval := congrArg Subtype.val (Option.some.inj h)
          have h1 : adocRepl target attrs = p.1.1 := congrArg Prod.fst hval
          have h2 : rem = p.1.2 := congrArg Prod.snd hval
          refine ⟨target, attrs, ?_, hq2, ht, hd2, h1.symm⟩
          have hq1b : l.drop 7 = target ++ '[' :: r2 := hq1
          have hd1b : r2 = attrs ++ ']' :: rem := hd1
          calc l = openerAdoc ++ l.drop 7 := hl7.symm
            _ = openerAdoc ++ (target ++ '[' :: r2) := by rw [hq1b]
            _ = openerAdoc ++ (target ++ '[' :: (attrs ++ ']' :: rem)) := by
                rw [hd1b]
            _ = openerAdoc ++ (target ++ '[' :: (attrs ++ ']' :: p.1.2)) := by
                rw [h2]
  · rw [dif_neg hpre] at h
    exact Option.noConfusion h

theorem adocTry_eq_none_of {X : List Char}
    (hcon : ∀ q, adocTry X = some q → False) : adocTry X = none := by
  cases h : adocTry X with
  | none => rfl
  | some q => exact absurd h (fun hq => hcon q hq)

theorem adocTry_ne_head {c : Char} {t : List Char} (hc : c ≠ 'i') :
    adocTry (c :: t) = none := by
  apply adocTry_eq_none_of
  intro q hq
  obtain ⟨target, attrs, heq, -, -, -, -⟩ := adocTry_some hq
  injection heq with h1 _
  exact hc h1

theorem adocTry_mem_bracket {t : List Char} {q} (hq : adocTry t = some q) :
    '[' ∈ t := by
  obtain ⟨target, attrs, heq, -, -, -, -⟩ := adocTry_some hq
  rw [heq]
  simp

theorem adocTry_mem_close {t : List Char} {q} (hq : adocTry t = some q) :
    ']' ∈ t := by
  obtain ⟨target, attrs, heq, -, -, -, -⟩ := adocTry_some hq
  rw [heq]
  simp

theorem adocTry_emptyTarget (r2 : List Char) :
    adocTry (openerAdoc ++ '[' :: r2) = none := by
  apply adocTry_eq_none_of
  intro q hq
  obtain ⟨target, attrs, heq, hnb, hne, -, -⟩ := adocTry_some hq
  have hu : '[' :: r2 = target ++ '[' :: (attrs ++ ']' :: q.1.2) :=
    List.append_cancel_left heq
  have hu2 : ([] : List Char) ++ '[' :: r2 =
      target ++ '[' :: (attrs ++ ']' :: q.1.2) := hu
  obtain ⟨he1, -⟩ := firstSplit_unique [] target r2 (attrs ++ ']' :: q.1.2)
    (by simp) hnb hu2
  exact hne he1.symm

theorem adocTry_noClose (b r2 : List Char) (hb : '[' ∉ b) (hr : ']' ∉ r2) :
    adocTry (b ++ '[' :: r2) = none := by
  apply adocTry_eq_none_of
  intro q hq
  obtain ⟨target, attrs, heq, hnb, -, -, -⟩ := adocTry_some hq
  have hu : b ++ '[' :: r2 =
      (openerAdoc ++ target) ++ '[' :: (attrs ++ ']' :: q.1.2) :=
    heq.trans (List.append_assoc openerAdoc target _).symm
  have hnb2 : '[' ∉ openerAdoc ++ target := by
    intro hm
    rcases List.mem_append.mp hm with hm | hm
    · simp [openerAdoc] at hm
    · exact hnb hm
  obtain ⟨-, he2⟩ := firstSplit_unique b (openerAdoc ++ target) r2
    (attrs ++ ']' :: q.1.2) hb hnb2 hu
  exact hr (by rw [he2]; simp)

theorem adocTry_build (t a Y : List Char) (ht1 : '[' ∉ t) (ht2 : t ≠ [])
    (ha : ']' ∉ a) :
    (adocTry (openerAdoc ++ (t ++ '[' :: (a ++ ']' :: Y)))).map Subtype.val =
      some (adocRepl t a, Y) := by
  have hpre : openerAdoc.isPrefixOf
      (openerAdoc ++ (t ++ '[' :: (a ++ ']' :: Y))) = true := by
    rw [List.isPrefixOf_iff_prefix]
    exact List.prefix_append _ _
  have hdrop : (openerAdoc ++ (t ++ '[' :: (a ++ ']' :: Y))).drop 7 =
      t ++ '[' :: (a ++ ']' :: Y) := by
    have h7 : (7 : Nat) = openerAdoc.length := by decide
    rw [h7, List.drop_left]
  unfold adocTry
  rw [dif_pos hpre]
  cases hsc : splitAtChar '['
      ((openerAdoc ++ (t ++ '[' :: (a ++ ']' :: Y))).drop 7) with
  | none =>
    exfalso
    rw [splitAtChar_none, hdrop] at hsc
    exact hsc (by simp)
  | some q =>
    obtain ⟨⟨t1, r1⟩, hc1, hc2⟩ := q
    have hline : t ++ '[' :: (a ++ ']' :: Y) = t1 ++ '[' :: r1 := by
      rw [← hdrop]
      exact hc1
    obtain ⟨he1, he2⟩ := firstSplit_unique t t1 (a ++ ']' :: Y) r1 ht1 hc2 hline
    subst he1
    subst he2
    dsimp only
    rw [if_neg ht2]
    cases hsc2 : splitAtChar ']' (a ++ ']' :: Y) with
    | none =>
      exfalso
      rw [splitAtChar_none] at hsc2
      exact hsc2 (by simp)
    | some q2 =>
      obtain ⟨⟨a1, Y1⟩, hd1, hd2⟩ := q2
      obtain ⟨hf1, hf2⟩ := firstSplit_unique a a1 Y Y1 ha hd2 hd1
      subst hf1
      subst hf2
      rfl

theorem adocRepl_take7 (t a : List Char) :
    7 ≤ (adocRepl t a).length ∧ (adocRepl t a).take 7 = openerAdoc := by
  unfold adocRepl
  constructor
  · simp [openerAdoc]
  · rw [List.append_assoc, List.append_assoc]
    have h7 : (7 : Nat) = openerAdoc.length := by decide
    rw [h7, List.take_left]

theorem adocTry_take7 (l : List Char)
    (p : {p : List Char × List Char // p.2.length < l.length})
    (h : adocTry l = some p) : 7 ≤ p.1.1.length ∧ p.1.1.take 7 = l.take 7 := by
  obtain ⟨target, attrs, heq, -, -, -, hr⟩ := adocTry_some h
  obtain ⟨hlen, htake⟩ := adocRepl_take7 target attrs
  have hlt : l.take 7 = openerAdoc := by
    rw [congrArg (List.take 7) heq]
    have h7 : (7 : Nat) = openerAdoc.length := by decide
    rw [h7, List.take_left]
  rw [hr, hlt]
  exact ⟨hlen, htake⟩

theorem adocTry_none_cases {l : List Char} (h : adocTry l = none) :
    ¬ openerAdoc.isPrefixOf l = true ∨
    '[' ∉ l ∨
    (∃ r2, l = openerAdoc ++ '[' :: r2) ∨
    (∃ target r2, l = (openerAdoc ++ target) ++ '[' :: r2 ∧
      '[' ∉ openerAdoc ++ target ∧ ']' ∉ r2) := by
  by_cases hpre : openerAdoc.isPrefixOf l = true
  · have hl7 : openerAdoc ++ l.drop 7 = l := by
      have := List.prefix_iff_eq_append.mp (List.isPrefixOf_iff_prefix.mp hpre)
      simpa [openerAdoc] using this
    unfold adocTry at h
    rw [dif_pos hpre] at h
    cases hs : splitAtChar '[' (l.drop 7) with
    | none =>
      right; left
      have hnb : '[' ∉ l.drop 7 := splitAtChar_none.mp hs
      intro hm
      rw [← hl7] at hm
      rcases List.mem_append.mp hm with hm | hm
      · simp [openerAdoc] at hm
      · exact hnb hm
    | some q =>
      obtain ⟨⟨target, r2⟩, hq1, hq2⟩ := q
      rw [hs] at h
      dsimp only at h
      have hq1b : l.drop 7 = target ++ '[' :: r2 := hq1
      by_cases ht : target = []
      · right; right; left
        refine ⟨r2, ?_⟩
        rw [← hl7, hq1b, ht]
        rfl
      · rw [if_neg ht] at h
        cases hs2 : splitAtChar ']' r2 with
        | none =>
          right; right; right
          refine ⟨target, r2, ?_, ?_, splitAtChar_none.mp hs2⟩
          · rw [← hl7, hq1b, List.append_assoc]
          · intro hm
            rcases List.mem_append.mp hm with hm | hm
            · simp [openerAdoc] at hm
            · exact hq2 hm
        | some q2 =>
          rw [hs2] at h
          exact Option.noConfusion h
  · exact Or.inl hpre

theorem adocId_noClose (r2 : List Char) (hr : ']' ∉ r2) :
    ∀ b, '[' ∉ b →
      scanRewrite adocTry (b ++ '[' :: r2) = b ++ '[' :: r2 := by
  intro b
  induction b with
  | nil =>
    intro _
    rw [List.nil_append,
      scanRewrite_none adocTry (adocTry_ne_head (by decide))]
    have hid : scanRewrite adocTry r2 = r2 := by
      apply scanRewrite_id
      intro n
      apply adocTry_eq_none_of
      intro q hq
      have := adocTry_mem_close hq
      exact hr (List.drop_subset n r2 this)
    rw [hid]
  | cons c b' ih =>
    intro hb
    have hb' : '[' ∉ b' := fun hm => hb (by simp [hm])
    have h0 : adocTry (c :: (b' ++ '[' :: r2)) = none := by
      have := adocTry_noClose (c :: b') r2 hb hr
      simpa using this
    rw [List.cons_append, scanRewrite_none adocTry h0, ih hb']

theorem adocScanPass_empty (r2 : List Char) :
    scanRewrite adocTry (openerAdoc ++ '[' :: r2) =
      openerAdoc ++ '[' :: scanRewrite adocTry r2 := by
  have h0 : adocTry ('i' :: ('m' :: 'a' :: 'g' :: 'e' :: ':' :: ':' ::
      '[' :: r2)) = none := adocTry_emptyTarget r2
  show scanRewrite adocTry ('i' :: ('m' :: 'a' :: 'g' :: 'e' :: ':' :: ':' ::
      '[' :: r2)) = _
  rw [scanRewrite_none adocTry h0,
    scanRewrite_none adocTry (adocTry_ne_head (by decide)),
    scanRewrite_none adocTry (adocTry_ne_head (by decide)),
    scanRewrite_none adocTry (adocTry_ne_head (by decide)),
    scanRewrite_none adocTry (adocTry_ne_head (by decide)),
    scanRewrite_none adocTry (adocTry_ne_head (by decide)),
    scanRewrite_none adocTry (adocTry_ne_head (by decide)),
    scanRewrite_none adocTry (adocTry_ne_head (by decide))]
  rfl

theorem adocStab (l : List Char) (h : adocTry l = none) :
    adocTry (scanRewrite adocTry l) = none := by
  rcases adocTry_none_cases h with hA | hB | ⟨r2, heq⟩ | ⟨target, r2, heq, hnb, hr⟩
  · apply adocTry_eq_none_of
    intro q hq
    obtain ⟨target, attrs, heq, -, -, -, -⟩ := adocTry_some hq
    apply hA
    rw [List.isPrefixOf_iff_prefix, List.prefix_iff_eq_take]
    have h7 : openerAdoc.length = 7 := by decide
    rw [h7]
    rw [← scanRewrite_take adocTry 7 adocTry_take7 l 7 (Nat.le_refl _)]
    rw [congrArg (List.take 7) heq]
    have h7b : (7 : Nat) = openerAdoc.length := by decide
    rw [h7b, List.take_left]
  · have hid : scanRewrite adocTry l = l := by
      apply scanRewrite_id
      intro n
      apply adocTry_eq_none_of
      intro q hq
      have := adocTry_mem_bracket hq
      exact hB (List.drop_subset n l this)
    rw [hid]
    exact h
  · subst heq
    rw [adocScanPass_empty r2]
    exact adocTry_emptyTarget (scanRewrite adocTry r2)
  · subst heq
    rw [adocId_noClose r2 hr (openerAdoc ++ target) hnb]
    exact h

theorem adocReplay (l : List Char)
    (p : {p : List Char × List Char // p.2.length < l.length})
    (h : adocTry l = some p) :
    (adocTry (p.1.1 ++ scanRewrite adocTry p.1.2)).map Subtype.val =
      some (p.1.1, scanRewrite adocTry p.1.2) := by
  obtain ⟨target, attrs, _heq, hnb, _hne, hna, hr⟩ := adocTry_some h
  have ht1 : '[' ∉ "img/".data ++ pyBasename target := by
    intro hm
    rcases List.mem_append.mp hm with hm | hm
    · simp at hm
    · exact hnb (pyBasename_subset target _ hm)
  have harg : p.1.1 ++ scanRewrite adocTry p.1.2 =
      openerAdoc ++ (("img/".data ++ pyBasename target) ++
        '[' :: (attrs ++ ']' :: scanRewrite adocTry p.1.2)) := by
    rw [hr]
    unfold adocRepl
    simp
  rw [harg, adocTry_build ("img/".data ++ pyBasename target) attrs
    (scanRewrite adocTry p.1.2) ht1 (by simp) hna]
  have hsame : adocRepl ("img/".data ++ pyBasename target) attrs =
      adocRepl target attrs := by
    unfold adocRepl
    rw [pyBasename_img (pyBasename target) (pyBasename_no_slash target)]
  rw [hsame, hr]

theorem adocPass_idem (l : List Char) :
    scanRewrite adocTry (scanRewrite adocTry l) = scanRewrite adocTry l :=
  scanRewrite_idem adocTry adocStab adocReplay l

/-! ### The dispatcher and the two rewrite claims -/

theorem fix_html (c : List Char) :
    fix_image_paths_in_file "html" c = scanRewrite htmlTry c := rfl

theorem fix_md (c : List Char) :
    fix_image_paths_in_file "markdown" c = scanRewrite mdTry c := rfl

theorem fix_rst (c : List Char) :
    fix_image_paths_in_file "rst" c = scanRewrite rstTry c := rfl

theorem fix_adoc (c : List Char) :
    fix_image_paths_in_file "asciidoc" c = scanRewrite adocTry c := rfl

theorem scanRewrite_of_build (T : (l : List Char) →
    Option {p : List Char × List Char // p.2.length < l.length})
    {l r rem : List Char} (h : (T l).map Subtype.val = some (r, rem)) :
    scanRewrite T l = r ++ scanRewrite T rem := by
  cases hT : T l with
  | none =>
    rw [hT] at h
    exact Option.noConfusion h
  | some p =>
    rw [hT, Option.map_some'] at h
    have hval := Option.some.inj h
    have h1 : p.1.1 = r := by rw [hval]
    have h2 : p.1.2 = rem := by rw [hval]
    rw [scanRewrite_some T hT, h1, h2]

/-- C5: reference rewriting is idempotent: for every output format (both the
four families with a rewrite pattern and the untouched rest), applying
`fix_image_paths_in_file` twice produces the same content as applying it
once. -/
theorem fix_image_paths_idempotent (output_format : String) (content : List Char) :
    fix_image_paths_in_file output_format
        (fix_image_paths_in_file output_format content) =
      fix_image_paths_in_file output_format content := by
  by_cases h1 : output_format ∈ (["html", "html5", "xhtml"] : List String)
  · simp only [fix_image_paths_in_file, if_pos h1]
    exact htmlPass_idem content
  by_cases h2 : output_format ∈
      (["markdown", "gfm", "commonmark", "commonmark_x"] : List String)
  · simp only [fix_image_paths_in_file, if_neg h1, if_pos h2]
    exact mdPass_idem content
  by_cases h3 : output_format ∈ (["rst"] : List String)
  · simp only [fix_image_paths_in_file, if_neg h1, if_neg h2, if_pos h3]
    exact rstPass_idem content
  by_cases h4 : output_format ∈ (["asciidoc"] : List String)
  · simp only [fix_image_paths_in_file, if_neg h1, if_neg h2, if_neg h3,
      if_pos h4]
    exact adocPass_idem content
  · simp only [fix_image_paths_in_file, if_neg h1, if_neg h2, if_neg h3,
      if_neg h4]

/-- C10: `fix_image_paths_in_file` takes no relocated-media list at all; once
an output format selects one of the four pattern families, the leading
matching reference — any non-empty quote-free HTML `src` value, any Markdown
image link with non-empty path, any non-empty RST directive target, any
AsciiDoc macro with non-empty target — is rewritten to `img/<basename of the
old path>` whatever the old path was (in particular an absolute URL), and
rewriting then continues over the remainder of the document. -/
theorem fix_image_paths_rewrites_all :
    (∀ grp rem, '"' ∉ grp → grp ≠ [] →
      fix_image_paths_in_file "html" (openerHtml ++ grp ++ '"' :: rem) =
        openerHtml ++ ("img/".data ++ pyBasename grp) ++ '"' ::
          fix_image_paths_in_file "html" rem) ∧
    (∀ alt path rem, ']' ∉ alt → ')' ∉ path → path ≠ [] →
      fix_image_paths_in_file "markdown"
          ('!' :: '[' :: (alt ++ ']' :: '(' :: (path ++ ')' :: rem))) =
        '!' :: '[' :: alt ++ ']' :: '(' ::
          (("img/".data ++ pyBasename path) ++ ')' ::
            fix_image_paths_in_file "markdown" rem)) ∧
    (∀ grp rem, '\n' ∉ grp → grp ≠ [] →
      (rem.head? = none ∨ rem.head? = some '\n') →
      fix_image_paths_in_file "rst" (openerRst ++ (grp ++ rem)) =
        openerRst ++ (("img/".data ++ pyBasename grp) ++
          fix_image_paths_in_file "rst" rem)) ∧
    (∀ target attrs rem, '[' ∉ target → target ≠ [] → ']' ∉ attrs →
      fix_image_paths_in_file "asciidoc"
          (openerAdoc ++ (target ++ '[' :: (attrs ++ ']' :: rem))) =
        openerAdoc ++ (("img/".data ++ pyBasename target) ++
          '[' :: attrs ++ ']' :: fix_image_paths_in_file "asciidoc" rem)) := by
  refine ⟨?_, ?_, ?_, ?_⟩
  · intro grp rem hg hne
    rw [fix_html, fix_html,
      scanRewrite_of_build htmlTry (htmlTry_build grp rem hg)]
    unfold htmlRepl
    rw [if_neg hne]
    simp [List.append_assoc]
  · intro alt path rem hna hnp hpne
    rw [fix_md, fix_md,
      scanRewrite_of_build mdTry (mdTry_build alt path rem hna hnp hpne)]
    unfold mdRepl
    simp [List.append_assoc]
  · intro grp rem hg hne hY
    rw [fix_rst, fix_rst,
      scanRewrite_of_build rstTry (rstTry_build grp rem hg hne hY)]
    unfold rstRepl
    simp [List.append_assoc]
  · intro target attrs rem ht1 ht2 hna
    rw [fix_adoc, fix_adoc,
      scanRewrite_of_build adocTry
        (adocTry_build target attrs rem ht1 ht2 hna)]
    unfold adocRepl
    simp [List.append_assoc]

/-- C10 (witness): one absolute URL per family, none of them ever relocated,
all rewritten to `img/<basename>`. -/
theorem fix_image_paths_rewrites_all_witness :
    fix_image_paths_in_file "html"
        "src=\"https://example.com/assets/logo.png\"".data =
      "src=\"img/logo.png\"".data ∧
    fix_image_paths_in_file "markdown"
        "![diagram](https://example.com/assets/d.png)".data =
      "![diagram](img/d.png)".data ∧
    fix_image_paths_in_file "rst"
        ".. image:: https://example.com/assets/pic.png".data =
      ".. image:: img/pic.png".data ∧
    fix_image_paths_in_file "asciidoc"
        "image::https://example.com/assets/pic.png[alt]".data =
      "image::img/pic.png[alt]".data := by
  refine ⟨?_, ?_, ?_, ?_⟩
  · exact (congrArg (fix_image_paths_in_file "html") (by decide)).trans
      ((fix_image_paths_rewrites_all.1
        "https://example.com/assets/logo.png".data [] (by decide)
        (by decide)).trans (by decide))
  · exact (congrArg (fix_image_paths_in_file "markdown") (by decide)).trans
      ((fix_image_paths_rewrites_all.2.1
        "diagram".data "https://example.com/assets/d.png".data [] (by decide)
        (by decide) (by decide)).trans (by decide))
  · exact (congrArg (fix_image_paths_in_file "rst") (by decide)).trans
      ((fix_image_paths_rewrites_all.2.2.1
        "https://example.com/assets/pic.png".data [] (by decide) (by decide)
        (Or.inl rfl)).trans (by decide))
  · exact (congrArg (fix_image_paths_in_file "asciidoc") (by decide)).trans
      ((fix_image_paths_rewrites_all.2.2.2
        "https://example.com/assets/pic.png".data "alt".data [] (by decide)
        (by decide) (by decide)).trans (by decide))

/-- C8: for every declared output format, `validate_output_file` fails when
the file does not exist, and fails on a zero-byte file regardless of
format. -/
theorem validate_output_file_rejects_missing_and_empty :
    (∀ output_format : String, (validate_output_file none output_format).1 = false) ∧
    (∀ output_format : String, (validate_output_file (some []) output_format).1 = false) := by
  constructor
  · intro fmt
    rfl
  · intro fmt
    simp [validate_output_file]

end PandocBackend
